import Mathlib

/-!
# C-web-server: a shallow embedding of the server core

The definitions below follow the C sources function by function
(`http_header.c`, `connection.c`, `log.c`, `config.c`, `server.c`, `server.h`).

Conventions of the embedding:

* a C `char` is a `Char` and a C buffer or `string` (stringutils) is a `List Char`
  holding its bytes; the `len` of a `string` is the length of the list;
* C `int`, `short` and `size_t` values are `Int` / `Nat`, with an explicit
  reduction where a conversion can change the value;
* calls into code that is not part of these sources (the request parser, the
  detector, the response sender, libc) are passed in as parameters, and the calls
  a function makes are recorded in a trace of `Event`s.
-/

set_option autoImplicit false

namespace CWebServer

/-! ## Data model (`server.h`) -/

/-- The bytes of a C buffer or of a stringutils `string`. -/
abbrev Bytes := List Char

/-- The enum `http_method` with its C values `-1, 0, 1, 2`. -/
inductive http_method where
  | HTTP_METHOD_UNKNOWN
  | HTTP_METHOD_NOT_SUPPORTED
  | HTTP_METHOD_GET
  | HTTP_METHOD_HEAD
  deriving DecidableEq, Repr

/-- The enum `http_version`. -/
inductive http_version where
  | HTTP_VERSION_UNKNOWN
  | HTTP_VERSION_09
  | HTTP_VERSION_10
  | HTTP_VERSION_11
  deriving DecidableEq, Repr

/-- The struct `keyvalue`: one header entry. -/
structure keyvalue where
  key : Bytes
  value : Bytes
  deriving DecidableEq, Repr

/-- The struct `http_headers`: `ptr` is the allocated array (one list element per
allocated slot), `len` the number of entries in use, `size` the recorded capacity.
The two `size_t` counters are natural numbers: an array of `2^64` entries cannot
be allocated, so they never wrap. -/
structure http_headers where
  ptr : List keyvalue
  len : Nat
  size : Nat
  deriving DecidableEq, Repr

/-- The struct `http_request`. -/
structure http_request where
  method : http_method
  version : http_version
  method_raw : Bytes
  version_raw : Bytes
  uri : Bytes
  headers : http_headers
  content_length : Int
  deriving DecidableEq, Repr

/-- The struct `http_response`. -/
structure http_response where
  content_length : Int
  entity_body : Bytes
  headers : http_headers
  deriving DecidableEq, Repr

/-- The enum `http_recv_state`. -/
inductive http_recv_state where
  | HTTP_RECV_STATE_WORD1
  | HTTP_RECV_STATE_WORD2
  | HTTP_RECV_STATE_WORD3
  | HTTP_RECV_STATE_SP1
  | HTTP_RECV_STATE_SP2
  | HTTP_RECV_STATE_LF
  | HTTP_RECV_STATE_LINE
  deriving DecidableEq, Repr

/-- The struct `connection` (the peer address is kept as an opaque number). -/
structure connection where
  sockfd : Int
  status_code : Int
  recv_buf : Bytes
  request : http_request
  response : http_response
  recv_state : http_recv_state
  addr : Nat
  request_len : Nat
  real_path : Bytes
  deriving DecidableEq, Repr

/-! ## `http_header.c` -/

/-- The constant `HEADER_SIZE_INC`. -/
def HEADER_SIZE_INC : Nat := 20

/-- Content of an array slot that was allocated and not yet written. -/
def fresh_slot : keyvalue := { key := [], value := [] }

/-- The call `realloc(ptr, n * sizeof(keyvalue))`, assumed to succeed: the first
slots keep their content and the array has `n` slots afterwards. -/
def realloc (ptr : List keyvalue) (n : Nat) : List keyvalue :=
  ptr.take n ++ List.replicate (n - ptr.length) fresh_slot

/-- The function `http_headers_init`: a zeroed struct. -/
def http_headers_init : http_headers := { ptr := [], len := 0, size := 0 }

/-- The static function `extend`. -/
def extend (h : http_headers) : http_headers :=
  if h.len ≥ h.size then
    { h with size := h.size + HEADER_SIZE_INC,
             ptr := realloc h.ptr (h.size + HEADER_SIZE_INC) }
  else h

/-- The call `string_init_str(s)`: a fresh `string` holding the bytes of `s`. -/
def string_init_str (s : Bytes) : Bytes := s

/-- Decimal digits of a natural number. -/
def decimal (n : Nat) : Bytes := Nat.toDigits 10 n

/-- Modelled from the spec: `string_append_int` of stringutils is not part of the
sources; `addInt` "formats the integer and stores it as the string value", taken
as the decimal rendering that `%d` produces. -/
def string_append_int (s : Bytes) (value : Int) : Bytes :=
  if value < 0 then s ++ '-' :: decimal value.natAbs else s ++ decimal value.toNat

/-- The store `h->ptr[i] = kv`; a store outside the allocated array stores nothing. -/
def store (h : http_headers) (i : Nat) (kv : keyvalue) : http_headers :=
  { h with ptr := h.ptr.set i kv }

/-- The function `http_headers_add`. -/
def http_headers_add (h : http_headers) (key value : Bytes) : http_headers :=
  let h := extend h
  let h := store h h.len { key := string_init_str key, value := string_init_str value }
  { h with len := h.len + 1 }

/-- The function `http_headers_add_int`. -/
def http_headers_add_int (h : http_headers) (key : Bytes) (value : Int) : http_headers :=
  let h := extend h
  let value_str := string_append_int [] value
  let h := store h h.len { key := string_init_str key, value := value_str }
  { h with len := h.len + 1 }

/-- The entries of a container in insertion order: the slots `ptr[0 .. len-1]`. -/
def entries (h : http_headers) : List keyvalue := h.ptr.take h.len

/-- A container whose bookkeeping matches its allocation: `size` slots are
allocated and at most `size` of them are in use. -/
def headers_ok (h : http_headers) : Prop := h.len ≤ h.size ∧ h.ptr.length = h.size

instance (h : http_headers) : Decidable (headers_ok h) := by
  unfold headers_ok; exact inferInstance

/-- One call on a header container. -/
inductive header_call where
  | add (key value : Bytes)
  | add_int (key : Bytes) (value : Int)
  deriving DecidableEq, Repr

/-- Performs one call. -/
def header_call.run (h : http_headers) : header_call → http_headers
  | .add k v => http_headers_add h k v
  | .add_int k n => http_headers_add_int h k n

/-- Performs a sequence of calls, first to last, on a container. -/
def run_calls (h : http_headers) (cs : List header_call) : http_headers :=
  cs.foldl header_call.run h

/-- Index of the slot that the next `add` or `add_int` writes: `h->len` after `extend`. -/
def write_index (h : http_headers) : Nat := (extend h).len

/-! ## `config.c` -/

/-- The character `'\n'`. -/
def LF : Char := Char.ofNat 10
/-- The character `'\t'`. -/
def TAB : Char := Char.ofNat 9
/-- The character `' '`. -/
def SPACE : Char := Char.ofNat 32
/-- The double quote character. -/
def QUOTE : Char := Char.ofNat 34
/-- The character `'='`. -/
def EQUALS : Char := Char.ofNat 61
/-- The backslash character. -/
def BACKSLASH : Char := Char.ofNat 92
/-- The terminating zero byte of a C string. -/
def NUL : Char := Char.ofNat 0
/-- The byte `0xFF`: stored into a (signed) `char` it compares equal to `EOF`. -/
def EOF_CHAR : Char := Char.ofNat 255

/-- The C string that starts at a buffer: its bytes up to the first zero byte. -/
def c_str (s : Bytes) : Bytes := s.takeWhile (fun c => c != NUL)

/-- The libc function `strlen`. -/
def strlen (s : Bytes) : Nat := (c_str s).length

/-- The libc function `tolower` in the C locale, on the code of a character. -/
def tolower (c : Char) : Int :=
  if 65 ≤ c.toNat ∧ c.toNat ≤ 90 then (c.toNat : Int) + 32 else (c.toNat : Int)

/-- Comparison of two C strings already cut at their zero byte, ignoring letter case. -/
def strcasecmp_aux : Bytes → Bytes → Int
  | [], [] => 0
  | [], y :: _ => 0 - tolower y
  | x :: _, [] => tolower x
  | x :: xs, y :: ys =>
    if tolower x = tolower y then strcasecmp_aux xs ys else tolower x - tolower y

/-- The libc function `strcasecmp`. -/
def strcasecmp (a b : Bytes) : Int := strcasecmp_aux (c_str a) (c_str b)

/-- The libc predicate `isspace` in the C locale. -/
def isspace (c : Char) : Bool :=
  c.toNat = 32 || (9 ≤ c.toNat && c.toNat ≤ 13)

/-- The libc predicate `isdigit`. -/
def isdigit (c : Char) : Bool := 48 ≤ c.toNat && c.toNat ≤ 57

/-- Value of a run of decimal digits. -/
def digits_value (ds : Bytes) : Nat :=
  ds.foldl (fun acc c => acc * 10 + (c.toNat - 48)) 0

/-- The libc function `strtol(s, NULL, 10)` with a 64-bit `long`: leading white
space, an optional sign, then digits; the result saturates at the ends of `long`. -/
def strtol10 (s : Bytes) : Int :=
  let s := s.dropWhile isspace
  let neg := s.head? = some (Char.ofNat 45)
  let s := if s.head? = some (Char.ofNat 45) ∨ s.head? = some (Char.ofNat 43) then s.tail else s
  let v : Int := digits_value (s.takeWhile isdigit)
  let v := if neg then 0 - v else v
  max (0 - 2 ^ 63) (min (2 ^ 63 - 1) v)

/-- Conversion of an integer to a 32-bit `int`. -/
def to_int (x : Int) : Int := (x + 2 ^ 31) % 2 ^ 32 - 2 ^ 31

/-- Conversion of an integer to a 16-bit `short`. -/
def to_short (x : Int) : Int := (x + 2 ^ 15) % 2 ^ 16 - 2 ^ 15

/-- The libc function `atoi` on the C string at `s`, which is
`(int) strtol(s, NULL, 10)`. -/
def atoi (s : Bytes) : Int := to_int (strtol10 (c_str s))

/-- Modelled from the spec: the struct `config` of `config.h`, which is not part
of the sources; the configuration supplies `(port: int, documentRoot: absolute path)`. -/
structure config where
  port : Int
  doc_root : Bytes
  deriving DecidableEq, Repr

/-- The function `config_init`: a zeroed struct. -/
def config_init : config := { port := 0, doc_root := [] }

/-- What `stat` reports for a path. -/
inductive stat_result where
  | dir
  | not_dir
  | fail (strerror : Bytes)
  deriving DecidableEq, Repr

/-- The file system as `stat` and `realpath` see it. For `realpath`, `resolved` is
the content of the output buffer after the call and `ok` tells whether the call
returned a non-null pointer. -/
structure filesystem where
  stat : Bytes → stat_result
  realpath_ok : Bytes → Bool
  realpath_resolved : Bytes → Bytes

/-- Which of the two strings `key` and `value` the pointer `buf` designates. -/
inductive buf_target where
  | key
  | value
  deriving DecidableEq, Repr

/-- The local variables of `config_load` together with the struct it fills. -/
structure load_state where
  conf : config
  line : Bytes
  key : Bytes
  value : Bytes
  buf : buf_target
  lineno : Int
  is_str : Nat
  deriving DecidableEq, Repr

/-- The data at hand at the label `configerr` before `exit(1)`: the line number,
the content of the string `line` (the message echoes it with `%s`, that is up to
its first zero byte) and the error message. -/
structure config_error where
  lineno : Int
  line : Bytes
  errormsg : Bytes
  deriving DecidableEq, Repr

/-- The state of `config_load` when its loop is entered. -/
def load_init (conf : config) : load_state :=
  { conf := conf, line := [], key := [], value := [], buf := .key, lineno := 1, is_str := 0 }

/-- The statement `string_append_ch(buf, ch)`. -/
def append_buf (s : load_state) (ch : Char) : load_state :=
  match s.buf with
  | .key => { s with key := s.key ++ [ch] }
  | .value => { s with value := s.value ++ [ch] }

/-- The inner `if (value->len != 0 && key->len != 0)` of the newline branch: the
struct after the setting is applied, or the error message. -/
def apply_setting (fs : filesystem) (s : load_state) : Except Bytes config :=
  if s.value.length ≠ 0 ∧ s.key.length ≠ 0 then
    if strcasecmp s.key "port".toList = 0 then
      let conf := { s.conf with port := atoi s.value }
      if conf.port = 0 then .error "invalid port".toList else .ok conf
    else if strcasecmp s.key "document-dir".toList = 0 then
      match fs.stat (c_str s.value) with
      | .dir => .ok { s.conf with doc_root := fs.realpath_resolved (c_str s.value) }
      | .not_dir => .error "invalid directory".toList
      | .fail msg => .error msg
    else .error "unsupported config setting".toList
  else .ok s.conf

/-- The branch `if (ch == '\n')` of the loop of `config_load`. -/
def config_newline (fs : filesystem) (s : load_state) : Except config_error load_state :=
  if (s.key.length = 0 ∧ s.value.length > 0) ∨ (s.value.length = 0 ∧ s.key.length > 0) then
    .error { lineno := s.lineno, line := s.line, errormsg := "bad syntax".toList }
  else
    match apply_setting fs s with
    | .error msg => .error { lineno := s.lineno, line := s.line, errormsg := msg }
    | .ok conf =>
      .ok { conf := conf, line := [], key := [], value := [], buf := .key,
            lineno := s.lineno + 1, is_str := s.is_str }

/-- One iteration of the loop of `config_load` on the character `ch`. -/
def config_step (fs : filesystem) (s : load_state) (ch : Char) :
    Except config_error load_state :=
  let s := if ch ≠ LF then { s with line := s.line ++ [ch] } else s
  if ch = BACKSLASH then .ok s
  else if s.is_str = 0 ∧ (ch = SPACE ∨ ch = TAB) then .ok s
  else if ch = QUOTE then .ok { s with is_str := (s.is_str + 1) % 2 }
  else if ch = EQUALS then .ok { s with buf := .value }
  else if ch = LF then config_newline fs s
  else .ok (append_buf s ch)

/-- The loop `while ((ch = fgetc(fp)) != EOF)` of `config_load` over the bytes of
the file, with `char ch` a signed character: the loop ends at the end of the file
and also at a byte `0xFF`, which compares equal to `EOF`. -/
def config_loop (fs : filesystem) : load_state → Bytes → Except config_error load_state
  | s, [] => .ok s
  | s, ch :: rest =>
    if ch = EOF_CHAR then .ok s
    else
      match config_step fs s ch with
      | .error e => .error e
      | .ok s1 => config_loop fs s1 rest

/-- How a call of `config_load` ends: it returns with the struct filled, or the
process exits with status 1 because the file cannot be opened or at `configerr`. -/
inductive load_outcome where
  | returned (conf : config)
  | open_failed
  | configerr (e : config_error)
  deriving DecidableEq, Repr

/-- The function `config_load`; `file` is the content of the file `fn`, or `none`
when `fopen` fails. -/
def config_load (fs : filesystem) (conf : config) (file : Option Bytes) : load_outcome :=
  match file with
  | none => .open_failed
  | some text =>
    match config_loop fs (load_init conf) text with
    | .error e => .configerr e
    | .ok s => .returned s.conf

/-- The exit status of the process when `config_load` does not return. -/
def load_outcome.exit_status : load_outcome → Option Int
  | .returned _ => none
  | .open_failed => some 1
  | .configerr _ => some 1

/-- The outcome with the echoed source line left out: the accepted values, or the
kind of error and the line number where it is raised. -/
inductive load_summary where
  | accepted (port : Int) (doc_root : Bytes)
  | open_failed
  | failed (lineno : Int) (errormsg : Bytes)
  deriving DecidableEq, Repr

/-- Summary of an outcome. -/
def load_outcome.summary : load_outcome → load_summary
  | .returned conf => .accepted conf.port conf.doc_root
  | .open_failed => .open_failed
  | .configerr e => .failed e.lineno e.errormsg

/-- Whether a position that follows the bytes `pre` is inside a double-quoted
string: an odd number of double quotes precedes it. -/
def in_quotes (pre : Bytes) : Bool := pre.count QUOTE % 2 = 1

/-- The `key` and `value` strings that the loop of `config_load` holds at the end
of the line `l`, when the line starts inside (`is_str = 1`) or outside
(`is_str = 0`) a double-quoted string. -/
def line_tokens (fs : filesystem) (is_str : Nat) (l : Bytes) : Option (Bytes × Bytes) :=
  match config_loop fs { load_init config_init with is_str := is_str } l with
  | .ok s => some (s.key, s.value)
  | .error _ => none

/-! ## `server.c` -/

/-- The struct `server`; the pointer `conf` is replaced by the struct it points to. -/
structure server where
  logfp : Option Nat
  sockfd : Int
  port : Int
  use_logfile : Int
  is_daemon : Int
  do_chroot : Int
  conf : config
  deriving DecidableEq, Repr

/-- The constant `DEFAULT_PORT`. -/
def DEFAULT_PORT : Int := 8080

/-- The function `server_init`: a zeroed struct. -/
def server_init : server :=
  { logfp := none, sockfd := 0, port := 0, use_logfile := 0, is_daemon := 0,
    do_chroot := 0, conf := config_init }

/-- The libc function `strncmp(a, b, n) == 0`: the first `n` characters of the two
C strings agree. -/
def strncmp_eq (a b : Bytes) (n : Nat) : Bool := (c_str a).take n = (c_str b).take n

/-- The test of `jail_server` on the document root:
`root_len < doc_len && strncmp(chroot_path, doc_root, root_len) == 0`. -/
def doc_root_check (chroot_path doc_root : Bytes) : Bool :=
  decide (strlen chroot_path < strlen doc_root)
    && strncmp_eq chroot_path doc_root (strlen chroot_path)

/-- The call `strncpy(p, p + root_len, len - root_len + 1)` on a C string. -/
def strip_root (p : Bytes) (root_len : Nat) : Bytes := (c_str p).drop root_len

/-- How a call of `jail_server` ends. -/
inductive jail_result where
  | exit_doc_root
  | exit_logfile
  | exit_chroot
  | jailed (serv : server) (logfile : Bytes)
  deriving DecidableEq, Repr

/-- The function `jail_server`; `chroot_ok` tells whether the call `chroot`
succeeds. The three `exit` results leave with status 1; `exit_doc_root` and
`exit_logfile` are reached before `chroot` is called. -/
def jail_server (chroot_ok : Bool) (serv : server) (logfile chroot_path : Bytes) :
    jail_result :=
  let root_len := strlen chroot_path
  if doc_root_check chroot_path serv.conf.doc_root then
    let serv := { serv with
      conf := { serv.conf with doc_root := strip_root serv.conf.doc_root root_len } }
    let after_log : Option Bytes :=
      if serv.use_logfile ≠ 0 then
        if logfile.head? ≠ some (Char.ofNat 47) then some logfile
        else if root_len < strlen logfile ∧ strncmp_eq chroot_path logfile root_len then
          some (strip_root logfile root_len)
        else none
      else some logfile
    match after_log with
    | none => .exit_logfile
    | some logfile => if chroot_ok then .jailed serv logfile else .exit_chroot
  else .exit_doc_root

/-- The path components of a path: the non-empty pieces between slashes. -/
def components (p : Bytes) : List Bytes :=
  (List.splitOn (Char.ofNat 47) p).filter (fun c => !c.isEmpty)

/-- As the spec words it: `doc_root` is a proper sub-directory of `chroot_path` when
the components of `chroot_path` are a strict initial segment of those of `doc_root`. -/
def proper_subdir (chroot_path doc_root : Bytes) : Prop :=
  components chroot_path <+: components doc_root
    ∧ components chroot_path ≠ components doc_root

instance (a b : Bytes) : Decidable (proper_subdir a b) := by
  unfold proper_subdir; exact inferInstance

/-- Step 2 of `start_server`: the port is set from the command line, else from the
configuration, else to the default. -/
def start_server_port (serv : server) : server :=
  if serv.port = 0 ∧ serv.conf.port ≠ 0 then { serv with port := to_short serv.conf.port }
  else if serv.port = 0 then { serv with port := DEFAULT_PORT }
  else serv

/-- How far `start_server` gets: the process exits, or the server reaches
`log_open` (step 4) with the given struct and log file path. -/
inductive start_result where
  | exited (status : Int)
  | ready (serv : server) (logfile : Bytes)
  deriving DecidableEq, Repr

/-- The function `start_server` up to its step 3; `web_conf` is the content of
the configuration file. -/
def start_server (fs : filesystem) (web_conf : Option Bytes) (chroot_ok : Bool)
    (serv : server) (chroot_path logfile : Bytes) : start_result :=
  match config_load fs config_init web_conf with
  | .returned conf =>
    let serv := start_server_port { serv with conf := conf }
    if serv.do_chroot ≠ 0 then
      match jail_server chroot_ok serv logfile chroot_path with
      | .jailed serv logfile => .ready serv logfile
      | _ => .exited 1
    else .ready serv logfile
  | _ => .exited 1

/-- One result of `getopt(argc, argv, "p:l:r:d")` with its `optarg`; `other` is any
value the `switch` of `main` has no case for. -/
inductive getopt_result where
  | p (optarg : Bytes)
  | d
  | l (optarg : Bytes)
  | r (optarg : Bytes)
  | other
  deriving DecidableEq, Repr

/-- The local variables of `main`. -/
structure main_state where
  serv : server
  logfile : Bytes
  chroot_path : Bytes
  deriving DecidableEq, Repr

/-- The body of the `switch` of `main` for one option; an error is the status
passed to `exit`. -/
def main_option (fs : filesystem) (m : main_state) : getopt_result → Except Int main_state
  | .p optarg =>
    let serv := { m.serv with port := to_short (atoi optarg) }
    if serv.port = 0 then .error 1 else .ok { m with serv := serv }
  | .d => .ok { m with serv := { m.serv with is_daemon := 1 } }
  | .l optarg =>
    .ok { m with logfile := c_str optarg, serv := { m.serv with use_logfile := 1 } }
  | .r optarg =>
    if fs.realpath_ok optarg then
      .ok { m with chroot_path := fs.realpath_resolved optarg,
                   serv := { m.serv with do_chroot := 1 } }
    else .error 1
  | .other => .ok m

/-- The option loop of `main` over the successive results of `getopt`. -/
def main_options (fs : filesystem) : main_state → List getopt_result → Except Int main_state
  | m, [] => .ok m
  | m, o :: os =>
    match main_option fs m o with
    | .error status => .error status
    | .ok m1 => main_options fs m1 os

/-- The state of `main` before the first option is read. -/
def main_init : main_state := { serv := server_init, logfile := [], chroot_path := [] }

/-- The function `main` up to the call of `do_fork_strategy`. -/
def main (fs : filesystem) (web_conf : Option Bytes) (chroot_ok : Bool)
    (opts : List getopt_result) : start_result :=
  match main_options fs main_init opts with
  | .error status => .exited status
  | .ok m => start_server fs web_conf chroot_ok m.serv m.chroot_path m.logfile

/-! ## `connection.c` -/

/-- One result of `recv(con->sockfd, buf, sizeof(buf), 0)`: bytes stored into `buf`
(the return value is their number), end of stream (0), or an error (-1). -/
inductive recv_result where
  | data (chunk : Bytes)
  | eof
  | error
  deriving DecidableEq, Repr

/-- The value `recv` returns. -/
def recv_result.nbytes : recv_result → Int
  | .data chunk => chunk.length
  | .eof => 0
  | .error => -1

/-- The bytes `recv` stored into `buf`. -/
def recv_result.buf : recv_result → Bytes
  | .data chunk => chunk
  | .eof => []
  | .error => []

/-- The calls a worker makes, in the order it makes them. -/
inductive Event where
  | printf_socket (fd : Int)
  | recv (r : recv_result)
  | http_request_complete
  | printf_closed (fd : Int)
  | log_info_closed (fd : Int)
  | perror_read
  | log_error_read
  | http_request_parse
  | http_response_send
  | log_request
  | http_request_free
  | http_response_free
  | string_free
  | close (fd : Int)
  | free_con
  | exit (status : Int)
  deriving DecidableEq, Repr

/-- The functions of `request.c` and `response.c` that `connection_handler` calls;
they are not part of the sources and may change the connection they are given. -/
structure collaborators where
  http_request_complete : connection → Int × connection
  http_request_parse : server → connection → connection
  http_response_send : server → connection → connection

/-- The call `string_append_len(s, buf, n)`. -/
def string_append_len (s buf : Bytes) (n : Int) : Bytes := s ++ buf.take n.toNat

/-- The body of the read loop after a positive read: the bytes are appended to
`recv_buf` and `http_request_complete(con)` is called; its return value and the
connection it leaves. -/
def feed (ext : collaborators) (con : connection) (r : recv_result) : Int × connection :=
  ext.http_request_complete
    { con with recv_buf := string_append_len con.recv_buf r.buf r.nbytes }

/-- State at the exit of the read loop of `connection_handler`: the connection,
the last value of `nbytes` (`none` when every result of the sequence was consumed
and the loop is still waiting in `recv`), the number of `recv` calls made, and the
calls made. -/
structure loop_result where
  con : connection
  nbytes : Option Int
  reads : Nat
  trace : List Event
  deriving DecidableEq, Repr

/-- The loop `while ((nbytes = recv(...)) > 0) { ... }` of `connection_handler`,
run against the sequence of results that the successive `recv` calls return. -/
def recv_loop (ext : collaborators) (con : connection) : List recv_result → loop_result
  | [] => { con := con, nbytes := none, reads := 0, trace := [] }
  | r :: rs =>
    if r.nbytes > 0 then
      let res := feed ext con r
      if res.1 ≠ 0 then
        { con := res.2, nbytes := some r.nbytes, reads := 1,
          trace := [.recv r, .http_request_complete] }
      else
        let out := recv_loop ext res.2 rs
        { con := out.con, nbytes := out.nbytes, reads := out.reads + 1,
          trace := .recv r :: .http_request_complete :: out.trace }
    else
      { con := con, nbytes := some r.nbytes, reads := 1, trace := [.recv r] }

/-- What a call of `connection_handler` leaves: the connection, the value returned
(`none` when the call never returns because the read loop is still waiting), and
the calls made. -/
structure handler_result where
  con : connection
  ret : Option Int
  trace : List Event
  deriving DecidableEq, Repr

/-- The statement `if (nbytes <= 0) { ... } else { ... }` of `connection_handler`:
the value of `ret` and the calls made. -/
def read_status (con : connection) (nbytes : Int) : Int × List Event :=
  if nbytes ≤ 0 then
    (-1, if nbytes = 0 then [.printf_closed con.sockfd, .log_info_closed con.sockfd]
         else if nbytes < 0 then [.perror_read, .log_error_read]
         else [])
  else (0, [])

/-- The function `connection_handler`. -/
def connection_handler (ext : collaborators) (serv : server) (con : connection)
    (rs : List recv_result) : handler_result :=
  let out := recv_loop ext con rs
  match out.nbytes with
  | none => { con := out.con, ret := none, trace := .printf_socket con.sockfd :: out.trace }
  | some nbytes =>
    let st := read_status out.con nbytes
    let con1 := ext.http_request_parse serv out.con
    let con2 := ext.http_response_send serv con1
    { con := con2, ret := some st.1,
      trace := .printf_socket con.sockfd :: out.trace ++ st.2
        ++ [.http_request_parse, .http_response_send, .log_request] }

/-- The function `connection_close`; `none` is the null pointer. -/
def connection_close : Option connection → List Event
  | none => []
  | some con =>
    [.http_request_free, .http_response_free, .string_free]
      ++ (if con.sockfd > -1 then [.close con.sockfd] else [])
      ++ [.free_con]

/-- The worker path of the child branch of `do_fork_strategy`:
`connection_handler(serv, con); connection_close(con);`. The second component
tells whether the end of the path is reached. -/
def worker_path (ext : collaborators) (serv : server) (con : connection)
    (rs : List recv_result) : List Event × Bool :=
  let h := connection_handler ext serv con rs
  match h.ret with
  | none => (h.trace, false)
  | some _ => (h.trace ++ connection_close (some h.con), true)

/-- The child branch of `do_fork_strategy`: the listening socket is closed, the
worker path runs, and the process exits with status 0. -/
def fork_child (ext : collaborators) (serv : server) (con : connection)
    (rs : List recv_result) : List Event :=
  let w := worker_path ext serv con rs
  .close serv.sockfd :: w.1 ++ (if w.2 then [.exit 0] else [])

/-- Whether an event is a call of the system call `close`. -/
def Event.is_close : Event → Bool
  | .close _ => true
  | _ => false

/-- The connection after the bytes of every positive read of a sequence have been
appended and passed to the detector, whatever the detector answered. -/
def fed (ext : collaborators) (con : connection) : List recv_result → connection
  | [] => con
  | r :: rs =>
    if r.nbytes > 0 then fed ext (feed ext con r).2 rs else fed ext con rs

/-- Whether the read number `i` (from 0) of the sequence ends the loop: it returns a
value `<= 0`, or the detector reports completeness once its bytes are appended. -/
def stops (ext : collaborators) (con : connection) (rs : List recv_result) (i : Nat) : Bool :=
  match rs.get? i with
  | none => false
  | some r =>
    decide (r.nbytes ≤ 0) || decide ((feed ext (fed ext con (rs.take i)) r).1 ≠ 0)

/-- The calls expected for one read: the `recv` itself, followed by one call of the
detector when the read is positive. -/
def read_events (r : recv_result) : List Event :=
  if r.nbytes > 0 then [.recv r, .http_request_complete] else [.recv r]

/-- The bytes that one read contributes to `recv_buf`: its chunk when positive. -/
def read_bytes (r : recv_result) : Bytes :=
  if r.nbytes > 0 then r.buf else []

/-! ## `log.c` -/

/-- The call `snprintf(content_len, sizeof(content_len), "%d", n)` with the buffer
of 20 bytes: the decimal rendering, cut to 19 characters. -/
def snprintf_d (n : Int) : Bytes := (string_append_int [] n).take 19

/-- The local `content_len` of `log_request`. -/
def log_content_len (req : http_request) (resp : http_response) : Bytes :=
  if resp.content_length > -1 ∧ req.method ≠ .HTTP_METHOD_HEAD then
    snprintf_d resp.content_length
  else "-".toList

/-- The fields of the line that `log_request` writes. -/
structure log_line where
  host_ip : Bytes
  date : Bytes
  method_raw : Bytes
  uri : Bytes
  version_raw : Bytes
  status_code : Int
  content_len : Bytes
  deriving DecidableEq, Repr

/-- The function `log_request` for non-null `serv` and `con`; `host_ip` and `date`
are the results of `inet_ntop` and `date_str`. -/
def log_request (host_ip date : Bytes) (con : connection) : log_line :=
  { host_ip := host_ip, date := date,
    method_raw := con.request.method_raw, uri := con.request.uri,
    version_raw := con.request.version_raw, status_code := con.status_code,
    content_len := log_content_len con.request con.response }

/-- Whether a value fits the C type `int`. -/
def is_int (n : Int) : Prop := -2 ^ 31 ≤ n ∧ n < 2 ^ 31

instance (n : Int) : Decidable (is_int n) := by
  unfold is_int; exact inferInstance

/-- Whether a value fits the C type `short`. -/
def is_short (n : Int) : Prop := -2 ^ 15 ≤ n ∧ n < 2 ^ 15

instance (n : Int) : Decidable (is_short n) := by
  unfold is_short; exact inferInstance

/-! ## Sample inputs -/

/-- A sample detector, parser and sender: the request counts as complete once a
newline has arrived; the parser records the buffer as the URI; the sender sets
the status code. -/
def sample_ext : collaborators :=
  { http_request_complete := fun c =>
      (if LF ∈ c.recv_buf then 1 else 0, { c with request_len := c.recv_buf.length }),
    http_request_parse := fun _ c => { c with request := { c.request with uri := c.recv_buf } },
    http_response_send := fun _ c => { c with status_code := 400 } }

/-- A sample connection as `connection_accept` creates it, on descriptor 4. -/
def sample_con : connection :=
  { sockfd := 4, status_code := 0, recv_buf := [],
    request := { method := .HTTP_METHOD_UNKNOWN, version := .HTTP_VERSION_UNKNOWN,
                 method_raw := [], version_raw := [], uri := [],
                 headers := http_headers_init, content_length := -1 },
    response := { content_length := -1, entity_body := [], headers := http_headers_init },
    recv_state := .HTTP_RECV_STATE_WORD1, addr := 0, request_len := 0, real_path := [] }

/-- A sample file system: `/srv/www` is the only directory and every path is
already canonical. -/
def sample_fs : filesystem :=
  { stat := fun p => if p = "/srv/www".toList then .dir
                     else .fail "No such file or directory".toList,
    realpath_ok := fun _ => true,
    realpath_resolved := fun p => p }

/-- A sample container: two entries added to the initial container. -/
def sample_headers : http_headers :=
  http_headers_add (http_headers_add http_headers_init "Host".toList "a".toList)
    "content-length".toList "7".toList

/-- The port that `start_server` is to select for a command-line port `c` and a
configuration-file port `f`, as the claim words it. -/
def selected_port (c f : Int) : Int :=
  if c ≠ 0 then c else if f ≠ 0 then f else 8080

/-- The port that `start_server` stores in the `short` field `serv->port`: `c` when
non-zero, otherwise `f` converted to `short` when non-zero, otherwise 8080. -/
def stored_port (c f : Int) : Int :=
  if c ≠ 0 then c else if f ≠ 0 then to_short f else 8080

/-! ## Auxiliary definitions used in the proofs -/

/-- The state with the echoed source line left out. -/
def erase_line (s : load_state) : load_state := { s with line := [] }

/-- What a run of the loop amounts to once the echoed line is left out. -/
def loop_summary : Except config_error load_state → load_summary
  | .ok s => .accepted s.conf.port s.conf.doc_root
  | .error e => .failed e.lineno e.errormsg

/-- What one iteration amounts to once the echoed line is left out. -/
def step_summary : Except config_error load_state → Except (Int × Bytes) load_state
  | .ok s => .ok (erase_line s)
  | .error e => .error (e.lineno, e.errormsg)

/-- The result of one iteration on a character other than the newline. -/
def scan_step (s : load_state) (ch : Char) : load_state :=
  let s := { s with line := s.line ++ [ch] }
  if ch = BACKSLASH then s
  else if s.is_str = 0 ∧ (ch = SPACE ∨ ch = TAB) then s
  else if ch = QUOTE then { s with is_str := (s.is_str + 1) % 2 }
  else if ch = EQUALS then { s with buf := .value }
  else append_buf s ch

/-- The token state of the loop: everything a later newline looks at apart from
the struct, the line number and the echoed line. -/
def same_tokens (s t : load_state) : Prop :=
  s.key = t.key ∧ s.value = t.value ∧ s.buf = t.buf ∧ s.is_str = t.is_str

/-- How `config_load` ends for a given result of its loop. -/
def loop_outcome : Except config_error load_state → load_outcome
  | .error e => .configerr e
  | .ok s => .returned s.conf

/-- The calls `connection_handler` makes before it calls the parser: the
`printf`, the reads with the detector calls, and the report of a failed read. -/
def handler_head (ext : collaborators) (con : connection) (rs : List recv_result)
    (n : Int) : List Event :=
  Event.printf_socket con.sockfd :: (recv_loop ext con rs).trace
    ++ (read_status (recv_loop ext con rs).con n).2

/-! ### Lemmas on the header container -/

theorem realloc_length (ptr : List keyvalue) (n : Nat) : (realloc ptr n).length = n := by
  simp only [realloc, List.length_append, List.length_take, List.length_replicate]
  omega

theorem extend_len (h : http_headers) : (extend h).len = h.len := by
  unfold extend; split <;> rfl

theorem extend_ok (h : http_headers) (hk : headers_ok h) :
    (extend h).len < (extend h).size ∧ (extend h).ptr.length = (extend h).size := by
  obtain ⟨h1, h2⟩ := hk
  unfold extend
  split
  · refine ⟨?_, realloc_length _ _⟩
    simp only [HEADER_SIZE_INC]; omega
  · exact ⟨by omega, h2⟩

theorem extend_take (h : http_headers) (hk : headers_ok h) :
    (extend h).ptr.take h.len = h.ptr.take h.len := by
  obtain ⟨h1, h2⟩ := hk
  unfold extend
  split
  · have hn : h.ptr.take (h.size + HEADER_SIZE_INC) = h.ptr :=
      List.take_of_length_le (by omega)
    simp only [realloc, hn]
    rw [List.take_append_of_le_length (by omega)]
  · rfl

theorem take_set_succ {α : Type} (l : List α) (n : Nat) (a : α) (hn : n < l.length) :
    (l.set n a).take (n + 1) = l.take n ++ [a] := by
  induction l generalizing n with
  | nil => simp at hn
  | cons x xs ih =>
    cases n with
    | zero => simp
    | succ m =>
      simp only [List.length_cons, Nat.add_lt_add_iff_right] at hn
      simp [ih m hn]

theorem store_entries (h : http_headers) (kv : keyvalue) (hk : headers_ok h) :
    ((store (extend h) (extend h).len kv).ptr).take ((extend h).len + 1)
      = entries h ++ [kv] := by
  have h1 := extend_ok h hk
  have h2 := extend_take h hk
  simp only [store, entries]
  rw [take_set_succ _ _ _ (by omega), extend_len, h2]

theorem store_ok (h : http_headers) (kv : keyvalue) (hk : headers_ok h) :
    headers_ok { store (extend h) (extend h).len kv with len := (extend h).len + 1 } := by
  have h1 := extend_ok h hk
  simp only [headers_ok, store, List.length_set]
  omega

theorem add_ok (h : http_headers) (k v : Bytes) (hk : headers_ok h) :
    headers_ok (http_headers_add h k v) := store_ok h _ hk

theorem add_int_ok (h : http_headers) (k : Bytes) (n : Int) (hk : headers_ok h) :
    headers_ok (http_headers_add_int h k n) := store_ok h _ hk

theorem add_entries (h : http_headers) (k v : Bytes) (hk : headers_ok h) :
    entries (http_headers_add h k v) = entries h ++ [{ key := k, value := v }] :=
  store_entries h _ hk

theorem add_int_entries (h : http_headers) (k : Bytes) (n : Int) (hk : headers_ok h) :
    entries (http_headers_add_int h k n)
      = entries h ++ [{ key := k, value := string_append_int [] n }] :=
  store_entries h _ hk

theorem extend_size_dvd (h : http_headers) (hd : HEADER_SIZE_INC ∣ h.size) :
    HEADER_SIZE_INC ∣ (extend h).size := by
  unfold extend
  split
  · exact Dvd.dvd.add hd (dvd_refl _)
  · exact hd

theorem run_ok_dvd (h : http_headers) (c : header_call)
    (hk : headers_ok h) (hd : HEADER_SIZE_INC ∣ h.size) :
    headers_ok (c.run h) ∧ HEADER_SIZE_INC ∣ (c.run h).size := by
  cases c with
  | add k v => exact ⟨add_ok h k v hk, extend_size_dvd h hd⟩
  | add_int k n => exact ⟨add_int_ok h k n hk, extend_size_dvd h hd⟩

theorem run_calls_ok_dvd (cs : List header_call) (h : http_headers)
    (hk : headers_ok h) (hd : HEADER_SIZE_INC ∣ h.size) :
    headers_ok (run_calls h cs) ∧ HEADER_SIZE_INC ∣ (run_calls h cs).size := by
  induction cs generalizing h with
  | nil => exact ⟨hk, hd⟩
  | cons c cs ih =>
    obtain ⟨h1, h2⟩ := run_ok_dvd h c hk hd
    exact ih (c.run h) h1 h2

theorem init_ok : headers_ok http_headers_init := by
  simp [headers_ok, http_headers_init]

/-! ### Lemmas on decimal rendering -/

theorem digitChar_ne_minus (m : Nat) (hm : m < 10) : Nat.digitChar m ≠ '-' := by
  interval_cases m <;> decide

theorem toDigitsCore_no_minus (f : Nat) : ∀ (n : Nat) (ds : List Char),
    '-' ∉ ds → '-' ∉ Nat.toDigitsCore 10 f n ds := by
  induction f with
  | zero => intro n ds hds; simpa [Nat.toDigitsCore] using hds
  | succ f ih =>
    intro n ds hds
    have hd : '-' ∉ Nat.digitChar (n % 10) :: ds := by
      intro hmem
      rcases List.mem_cons.1 hmem with h | h
      · exact digitChar_ne_minus (n % 10) (Nat.mod_lt _ (by decide)) h.symm
      · exact hds h
    simp only [Nat.toDigitsCore]
    split
    · exact hd
    · exact ih _ _ hd

theorem decimal_no_minus (n : Nat) : '-' ∉ decimal n :=
  toDigitsCore_no_minus _ _ _ (by simp)

theorem decimal_length (n : Nat) (hn : n < 2 ^ 31) : (decimal n).length ≤ 10 :=
  Nat.toDigitsCore_length 10 (by decide) (n + 1) n 10
    (lt_of_lt_of_le hn (by norm_num)) (by decide)

theorem snprintf_d_nonneg (n : Int) (h0 : 0 ≤ n) (hn : n < 2 ^ 31) :
    snprintf_d n = decimal n.toNat := by
  have hlen : (decimal n.toNat).length ≤ 10 := decimal_length _ (by omega)
  have hneg : ¬ n < 0 := by omega
  simp only [snprintf_d, string_append_int, hneg, if_false, List.nil_append]
  exact List.take_of_length_le (by omega)

/-! ### Lemmas on the read loop -/

theorem buf_take_nbytes (r : recv_result) : r.buf.take r.nbytes.toNat = r.buf := by
  cases r <;> simp [recv_result.buf, recv_result.nbytes]

theorem feed_recv_buf (ext : collaborators) (con : connection) (r : recv_result)
    (hframe : ∀ c, (ext.http_request_complete c).2.recv_buf = c.recv_buf) :
    (feed ext con r).2.recv_buf = con.recv_buf ++ r.buf := by
  simp [feed, hframe, string_append_len, buf_take_nbytes]

theorem recv_loop_nonpos (ext : collaborators) (con : connection) (r : recv_result)
    (rs : List recv_result) (h : ¬ r.nbytes > 0) :
    recv_loop ext con (r :: rs)
      = { con := con, nbytes := some r.nbytes, reads := 1, trace := [.recv r] } := by
  simp [recv_loop, h]

theorem recv_loop_complete (ext : collaborators) (con : connection) (r : recv_result)
    (rs : List recv_result) (h : r.nbytes > 0) (hc : (feed ext con r).1 ≠ 0) :
    recv_loop ext con (r :: rs)
      = { con := (feed ext con r).2, nbytes := some r.nbytes, reads := 1,
          trace := [.recv r, .http_request_complete] } := by
  simp [recv_loop, h, hc]

theorem recv_loop_more (ext : collaborators) (con : connection) (r : recv_result)
    (rs : List recv_result) (h : r.nbytes > 0) (hc : (feed ext con r).1 = 0) :
    recv_loop ext con (r :: rs)
      = { con := (recv_loop ext (feed ext con r).2 rs).con,
          nbytes := (recv_loop ext (feed ext con r).2 rs).nbytes,
          reads := (recv_loop ext (feed ext con r).2 rs).reads + 1,
          trace := .recv r :: .http_request_complete
            :: (recv_loop ext (feed ext con r).2 rs).trace } := by
  simp [recv_loop, h, hc]

theorem stops_zero (ext : collaborators) (con : connection) (r : recv_result)
    (rs : List recv_result) :
    stops ext con (r :: rs) 0 = (decide (r.nbytes ≤ 0) || decide ((feed ext con r).1 ≠ 0)) := by
  simp [stops, fed]

theorem stops_succ (ext : collaborators) (con : connection) (r : recv_result)
    (rs : List recv_result) (i : Nat) (h : r.nbytes > 0) :
    stops ext con (r :: rs) (i + 1) = stops ext (feed ext con r).2 rs i := by
  simp [stops, fed, h]

theorem stops_nil (ext : collaborators) (con : connection) (i : Nat) :
    stops ext con [] i = false := by
  simp [stops]

theorem recv_loop_reads_le (ext : collaborators) (rs : List recv_result) :
    ∀ con, (recv_loop ext con rs).reads ≤ rs.length := by
  induction rs with
  | nil => intro con; simp [recv_loop]
  | cons r rs ih =>
    intro con
    by_cases h : r.nbytes > 0
    · by_cases hc : (feed ext con r).1 = 0
      · rw [recv_loop_more ext con r rs h hc]
        have := ih (feed ext con r).2
        simp only [List.length_cons]; omega
      · rw [recv_loop_complete ext con r rs h hc]; simp
    · rw [recv_loop_nonpos ext con r rs h]; simp

theorem recv_loop_trace (ext : collaborators) (rs : List recv_result) :
    ∀ con, (recv_loop ext con rs).trace
      = (rs.take (recv_loop ext con rs).reads).flatMap read_events := by
  induction rs with
  | nil => intro con; simp [recv_loop]
  | cons r rs ih =>
    intro con
    by_cases h : r.nbytes > 0
    · by_cases hc : (feed ext con r).1 = 0
      · rw [recv_loop_more ext con r rs h hc]
        simp only [List.take_succ_cons, List.flatMap_cons, read_events, h, if_true]
        rw [← ih]; rfl
      · rw [recv_loop_complete ext con r rs h hc]; simp [read_events, h]
    · rw [recv_loop_nonpos ext con r rs h]; simp [read_events, h]

theorem recv_loop_buf (ext : collaborators) (rs : List recv_result)
    (hframe : ∀ c, (ext.http_request_complete c).2.recv_buf = c.recv_buf) :
    ∀ con, (recv_loop ext con rs).con.recv_buf
      = con.recv_buf ++ (rs.take (recv_loop ext con rs).reads).flatMap read_bytes := by
  induction rs with
  | nil => intro con; simp [recv_loop]
  | cons r rs ih =>
    intro con
    by_cases h : r.nbytes > 0
    · by_cases hc : (feed ext con r).1 = 0
      · rw [recv_loop_more ext con r rs h hc]
        simp only [List.take_succ_cons, List.flatMap_cons, read_bytes, h, if_true]
        rw [ih, feed_recv_buf ext con r hframe, List.append_assoc]
      · rw [recv_loop_complete ext con r rs h hc]
        simp [read_bytes, h, feed_recv_buf ext con r hframe]
    · rw [recv_loop_nonpos ext con r rs h]; simp [read_bytes, h]

theorem recv_loop_before (ext : collaborators) (rs : List recv_result) :
    ∀ con i, i + 1 < (recv_loop ext con rs).reads → stops ext con rs i = false := by
  induction rs with
  | nil => intro con i hi; simp [recv_loop] at hi
  | cons r rs ih =>
    intro con i hi
    by_cases h : r.nbytes > 0
    · by_cases hc : (feed ext con r).1 = 0
      · rw [recv_loop_more ext con r rs h hc] at hi
        simp only at hi
        cases i with
        | zero =>
          rw [stops_zero]
          have h1 : ¬ r.nbytes ≤ 0 := by omega
          simp [h1, hc]
        | succ j =>
          rw [stops_succ ext con r rs j h]
          exact ih _ j (by omega)
      · rw [recv_loop_complete ext con r rs h hc] at hi; simp at hi
    · rw [recv_loop_nonpos ext con r rs h] at hi; simp at hi

theorem recv_loop_last (ext : collaborators) (rs : List recv_result) :
    ∀ con n, (recv_loop ext con rs).nbytes = some n →
      0 < (recv_loop ext con rs).reads
      ∧ stops ext con rs ((recv_loop ext con rs).reads - 1) = true
      ∧ (rs.get? ((recv_loop ext con rs).reads - 1)).map recv_result.nbytes = some n := by
  induction rs with
  | nil => intro con n hn; simp [recv_loop] at hn
  | cons r rs ih =>
    intro con n hn
    by_cases h : r.nbytes > 0
    · by_cases hc : (feed ext con r).1 = 0
      · rw [recv_loop_more ext con r rs h hc] at hn ⊢
        simp only at hn ⊢
        obtain ⟨h1, h2, h3⟩ := ih _ n hn
        obtain ⟨k, hk⟩ : ∃ k, (recv_loop ext (feed ext con r).2 rs).reads = k + 1 :=
          ⟨_, (Nat.succ_pred_eq_of_pos h1).symm⟩
        rw [hk] at h2 h3 ⊢
        simp only [Nat.add_sub_cancel] at h2 h3 ⊢
        refine ⟨by omega, ?_, ?_⟩
        · rw [stops_succ ext con r rs k h]; exact h2
        · simpa using h3
      · rw [recv_loop_complete ext con r rs h hc] at hn ⊢
        simp only [Option.some.injEq] at hn
        refine ⟨by simp, ?_, ?_⟩
        · simp [stops_zero, hc]
        · simp [hn]
    · rw [recv_loop_nonpos ext con r rs h] at hn ⊢
      simp only [Option.some.injEq] at hn
      have h1 : r.nbytes ≤ 0 := by omega
      refine ⟨by simp, ?_, ?_⟩
      · simp [stops_zero, h1]
      · simp [hn]

theorem recv_loop_waiting (ext : collaborators) (rs : List recv_result) :
    ∀ con, (recv_loop ext con rs).nbytes = none →
      (recv_loop ext con rs).reads = rs.length ∧ ∀ i, stops ext con rs i = false := by
  induction rs with
  | nil => intro con _; exact ⟨by simp [recv_loop], fun i => stops_nil ext con i⟩
  | cons r rs ih =>
    intro con hn
    by_cases h : r.nbytes > 0
    · by_cases hc : (feed ext con r).1 = 0
      · rw [recv_loop_more ext con r rs h hc] at hn ⊢
        simp only at hn ⊢
        obtain ⟨h1, h2⟩ := ih _ hn
        refine ⟨by simp [h1], ?_⟩
        intro i
        cases i with
        | zero =>
          have h3 : ¬ r.nbytes ≤ 0 := by omega
          simp [stops_zero, h3, hc]
        | succ j => rw [stops_succ ext con r rs j h]; exact h2 j
      · rw [recv_loop_complete ext con r rs h hc] at hn; simp at hn
    · rw [recv_loop_nonpos ext con r rs h] at hn; simp at hn

theorem recv_loop_events (ext : collaborators) (rs : List recv_result) :
    ∀ con e, e ∈ (recv_loop ext con rs).trace →
      (∃ r, e = Event.recv r) ∨ e = Event.http_request_complete := by
  induction rs with
  | nil => intro con e he; simp [recv_loop] at he
  | cons r rs ih =>
    intro con e he
    by_cases h : r.nbytes > 0
    · by_cases hc : (feed ext con r).1 = 0
      · rw [recv_loop_more ext con r rs h hc] at he
        simp only [List.mem_cons] at he
        rcases he with he | he | he
        · exact Or.inl ⟨r, he⟩
        · exact Or.inr he
        · exact ih _ e he
      · rw [recv_loop_complete ext con r rs h hc] at he
        simp only [List.mem_cons, List.mem_singleton, List.not_mem_nil, or_false] at he
        rcases he with he | he
        · exact Or.inl ⟨r, he⟩
        · exact Or.inr he
    · rw [recv_loop_nonpos ext con r rs h] at he
      simp only [List.mem_singleton] at he
      exact Or.inl ⟨r, he⟩

/-! ### Lemmas on `config_load` -/

theorem config_load_some (fs : filesystem) (conf : config) (text : Bytes) :
    (config_load fs conf (some text)).summary
      = loop_summary (config_loop fs (load_init conf) text) := by
  simp only [config_load]
  cases config_loop fs (load_init conf) text <;> rfl

theorem apply_setting_erase (fs : filesystem) (s : load_state) :
    apply_setting fs (erase_line s) = apply_setting fs s := rfl

theorem config_newline_erase (fs : filesystem) (s : load_state) :
    step_summary (config_newline fs (erase_line s)) = step_summary (config_newline fs s) := by
  simp only [config_newline, apply_setting_erase]
  have hk : (erase_line s).key = s.key := rfl
  have hv : (erase_line s).value = s.value := rfl
  have hn : (erase_line s).lineno = s.lineno := rfl
  have hq : (erase_line s).is_str = s.is_str := rfl
  simp only [hk, hv, hn, hq]
  split
  · rfl
  · cases apply_setting fs s <;> rfl

theorem config_loop_cons (fs : filesystem) (s : load_state) (ch : Char) (rest : Bytes) :
    config_loop fs s (ch :: rest)
      = if ch = EOF_CHAR then .ok s
        else match config_step fs s ch with
          | .error e => .error e
          | .ok s1 => config_loop fs s1 rest := rfl

theorem config_step_lf (fs : filesystem) (s : load_state) :
    config_step fs s LF = config_newline fs s := by
  have h1 : LF ≠ BACKSLASH := by decide
  have h2 : LF ≠ SPACE := by decide
  have h3 : LF ≠ TAB := by decide
  have h4 : LF ≠ QUOTE := by decide
  have h5 : LF ≠ EQUALS := by decide
  simp [config_step, h1, h2, h3, h4, h5]

theorem config_step_not_lf (fs : filesystem) (s : load_state) (ch : Char) (h : ch ≠ LF) :
    config_step fs s ch = .ok (scan_step s ch) := by
  simp only [config_step, scan_step, ne_eq, h, not_false_eq_true, if_true, if_false]
  split
  · rfl
  · split
    · rfl
    · split
      · rfl
      · split <;> rfl

theorem scan_step_erase (s : load_state) (ch : Char) :
    erase_line (scan_step (erase_line s) ch) = erase_line (scan_step s ch) := by
  simp only [scan_step, erase_line]
  split
  · rfl
  · split
    · rfl
    · split
      · rfl
      · split
        · rfl
        · cases hb : s.buf <;> simp [append_buf, hb]

theorem config_step_erase (fs : filesystem) (s : load_state) (ch : Char) :
    step_summary (config_step fs (erase_line s) ch) = step_summary (config_step fs s ch) := by
  by_cases hlf : ch = LF
  · subst hlf
    rw [config_step_lf, config_step_lf]
    exact config_newline_erase fs s
  · rw [config_step_not_lf fs _ ch hlf, config_step_not_lf fs _ ch hlf]
    simp only [step_summary, scan_step_erase]

theorem config_step_same (fs : filesystem) (s t : load_state) (ch : Char)
    (h : erase_line s = erase_line t) :
    step_summary (config_step fs s ch) = step_summary (config_step fs t ch) := by
  rw [← config_step_erase fs s ch, ← config_step_erase fs t ch, h]

theorem erase_line_conf (s t : load_state) (h : erase_line s = erase_line t) :
    s.conf = t.conf := by
  have h1 := congrArg (fun x => x.conf) h
  exact h1

theorem config_loop_same (fs : filesystem) (text : Bytes) :
    ∀ s t, erase_line s = erase_line t →
      loop_summary (config_loop fs s text) = loop_summary (config_loop fs t text) := by
  induction text with
  | nil =>
    intro s t h
    simp [config_loop, loop_summary, erase_line_conf s t h]
  | cons ch rest ih =>
    intro s t h
    rw [config_loop_cons, config_loop_cons]
    split
    · simp [loop_summary, erase_line_conf s t h]
    · have hs := config_step_same fs s t ch h
      cases h2 : config_step fs s ch with
      | error e =>
        cases h3 : config_step fs t ch with
        | error e2 =>
          rw [h2, h3] at hs
          simp only [step_summary, Except.error.injEq, Prod.mk.injEq] at hs
          simp [loop_summary, hs.1, hs.2]
        | ok t1 => rw [h2, h3] at hs; simp [step_summary] at hs
      | ok s1 =>
        cases h3 : config_step fs t ch with
        | error e2 => rw [h2, h3] at hs; simp [step_summary] at hs
        | ok t1 =>
          rw [h2, h3] at hs
          simp only [step_summary, Except.ok.injEq] at hs
          exact ih s1 t1 hs

theorem config_step_blank (fs : filesystem) (s : load_state) (c : Char)
    (h0 : s.is_str = 0) (hc : c = SPACE ∨ c = TAB) :
    config_step fs s c = .ok { s with line := s.line ++ [c] } := by
  have h1 : c ≠ LF := by rcases hc with rfl | rfl <;> decide
  have h2 : c ≠ BACKSLASH := by rcases hc with rfl | rfl <;> decide
  simp [config_step, h1, h2, h0, hc]

theorem blank_ne_eof (c : Char) (hc : c = SPACE ∨ c = TAB) : c ≠ EOF_CHAR := by
  rcases hc with rfl | rfl <;> decide

theorem config_loop_blanks (fs : filesystem) (ws post : Bytes)
    (hws : ∀ c ∈ ws, c = SPACE ∨ c = TAB) :
    ∀ s, s.is_str = 0 →
      loop_summary (config_loop fs s (ws ++ post)) = loop_summary (config_loop fs s post) := by
  induction ws with
  | nil => intro s _; rfl
  | cons c ws ih =>
    intro s h0
    have hc := hws c (List.mem_cons_self _ _)
    have hrest : ∀ d ∈ ws, d = SPACE ∨ d = TAB := fun d hd => hws d (List.mem_cons_of_mem _ hd)
    rw [List.cons_append, config_loop_cons, if_neg (blank_ne_eof c hc),
      config_step_blank fs s c h0 hc]
    exact (ih hrest { s with line := s.line ++ [c] } h0).trans
      (config_loop_same fs post _ _ rfl)

theorem scan_step_is_str (s : load_state) (ch : Char) :
    (scan_step s ch).is_str = if ch = QUOTE then (s.is_str + 1) % 2 else s.is_str := by
  have hq1 : QUOTE ≠ BACKSLASH := by decide
  have hq2 : QUOTE ≠ SPACE := by decide
  have hq3 : QUOTE ≠ TAB := by decide
  by_cases hq : ch = QUOTE
  · subst hq
    simp [scan_step, hq1, hq2, hq3]
  · simp only [scan_step, hq, if_false]
    split
    · rfl
    · split
      · rfl
      · split
        · rfl
        · simp only [append_buf]; split <;> rfl

theorem config_newline_ok (fs : filesystem) (s s1 : load_state)
    (h : config_newline fs s = .ok s1) :
    s1.is_str = s.is_str ∧ s1.lineno = s.lineno + 1 ∧ s1.line = [] ∧ s1.key = []
      ∧ s1.value = [] ∧ s1.buf = .key := by
  simp only [config_newline] at h
  split at h
  · cases h
  · split at h
    · cases h
    · injection h with h; subst h; simp

theorem config_step_is_str (fs : filesystem) (s s1 : load_state) (ch : Char)
    (h : config_step fs s ch = .ok s1) :
    s1.is_str = if ch = QUOTE then (s.is_str + 1) % 2 else s.is_str := by
  by_cases hlf : ch = LF
  · subst hlf
    have hq : LF ≠ QUOTE := by decide
    rw [config_step_lf] at h
    simp [hq, (config_newline_ok fs s s1 h).1]
  · rw [config_step_not_lf fs s ch hlf] at h
    injection h with h
    subst h
    exact scan_step_is_str s ch

theorem config_loop_insert (fs : filesystem) (ws post : Bytes)
    (hws : ∀ c ∈ ws, c = SPACE ∨ c = TAB) (pre : Bytes) :
    ∀ s, s.is_str < 2 → (s.is_str + pre.count QUOTE) % 2 = 0 →
      loop_summary (config_loop fs s (pre ++ (ws ++ post)))
        = loop_summary (config_loop fs s (pre ++ post)) := by
  induction pre with
  | nil =>
    intro s h2 hp
    have h0 : s.is_str = 0 := by simp at hp; omega
    exact config_loop_blanks fs ws post hws s h0
  | cons ch pre ih =>
    intro s h2 hp
    rw [List.cons_append, List.cons_append, config_loop_cons, config_loop_cons]
    split
    · rfl
    · cases hst : config_step fs s ch with
      | error e => rfl
      | ok s1 =>
        have hq := config_step_is_str fs s s1 ch hst
        simp only
        apply ih s1
        · rw [hq]; split <;> omega
        · rw [hq]
          by_cases hc : ch = QUOTE
          · subst hc
            simp only [List.count_cons_self, if_true] at hp ⊢
            omega
          · have hc2 : (ch == QUOTE) = false := by simpa using hc
            simp only [List.count_cons, hc2, hc, if_false] at hp ⊢
            simpa using hp

theorem config_loop_append (fs : filesystem) (a b : Bytes) (ha : EOF_CHAR ∉ a) :
    ∀ s, config_loop fs s (a ++ b)
      = match config_loop fs s a with
        | .error e => .error e
        | .ok s1 => config_loop fs s1 b := by
  induction a with
  | nil => intro s; rfl
  | cons ch a ih =>
    intro s
    have hch : ch ≠ EOF_CHAR := fun h => ha (h ▸ List.mem_cons_self _ _)
    have ha2 : EOF_CHAR ∉ a := fun h => ha (List.mem_cons_of_mem _ h)
    rw [List.cons_append, config_loop_cons, config_loop_cons, if_neg hch, if_neg hch]
    cases config_step fs s ch with
    | error e => rfl
    | ok s1 => exact ih ha2 s1

theorem config_step_lineno (fs : filesystem) (s s1 : load_state) (ch : Char)
    (h : config_step fs s ch = .ok s1) :
    s1.lineno = s.lineno + if ch = LF then 1 else 0 := by
  by_cases hlf : ch = LF
  · subst hlf
    rw [config_step_lf] at h
    simp [(config_newline_ok fs s s1 h).2.1]
  · rw [config_step_not_lf fs s ch hlf] at h
    injection h with h
    subst h
    simp only [hlf, if_false, add_zero, scan_step]
    split
    · rfl
    · split
      · rfl
      · split
        · rfl
        · split
          · rfl
          · simp only [append_buf]; split <;> rfl

theorem config_loop_ok_facts (fs : filesystem) (a : Bytes) (ha : EOF_CHAR ∉ a) :
    ∀ s s1, config_loop fs s a = .ok s1 → s.is_str < 2 →
      s1.is_str = (s.is_str + a.count QUOTE) % 2
      ∧ s1.lineno = s.lineno + (a.count LF : Nat) := by
  induction a with
  | nil =>
    intro s s1 h h2
    simp only [config_loop, Except.ok.injEq] at h
    subst h
    simp only [List.count_nil, add_zero, Nat.cast_zero, and_true]
    omega
  | cons ch a ih =>
    intro s s1 h h2
    have hch : ch ≠ EOF_CHAR := fun h => ha (h ▸ List.mem_cons_self _ _)
    have ha2 : EOF_CHAR ∉ a := fun h => ha (List.mem_cons_of_mem _ h)
    rw [config_loop_cons, if_neg hch] at h
    cases hst : config_step fs s ch with
    | error e => rw [hst] at h; cases h
    | ok s2 =>
      rw [hst] at h
      have hq := config_step_is_str fs s s2 ch hst
      have hl := config_step_lineno fs s s2 ch hst
      have h22 : s2.is_str < 2 := by rw [hq]; split <;> omega
      obtain ⟨i1, i2⟩ := ih ha2 s2 s1 h h22
      refine ⟨?_, ?_⟩
      · rw [i1, hq]
        by_cases hc : ch = QUOTE
        · subst hc
          simp only [List.count_cons_self, if_true]
          omega
        · have hc2 : (ch == QUOTE) = false := by simpa using hc
          simp [List.count_cons, hc2, hc]
      · rw [i2, hl]
        by_cases hc : ch = LF
        · subst hc
          simp only [List.count_cons_self, if_true]
          push_cast
          ring
        · have hc2 : (ch == LF) = false := by simpa using hc
          simp [List.count_cons, hc2, hc]

theorem config_loop_line_start (fs : filesystem) (conf : config) (a : Bytes)
    (ha : EOF_CHAR ∉ a) (hstart : a = [] ∨ a.getLast? = some LF) (s1 : load_state)
    (h : config_loop fs (load_init conf) a = .ok s1) :
    s1.key = [] ∧ s1.value = [] ∧ s1.buf = .key ∧ s1.line = [] := by
  rcases hstart with rfl | hlast
  · simp only [config_loop, Except.ok.injEq] at h
    subst h
    simp [load_init]
  · obtain ⟨a1, rfl⟩ := List.getLast?_eq_some_iff.mp hlast
    have ha1 : EOF_CHAR ∉ a1 := fun hm => ha (List.mem_append_left _ hm)
    rw [config_loop_append fs a1 [LF] ha1] at h
    cases h1 : config_loop fs (load_init conf) a1 with
    | error e => rw [h1] at h; cases h
    | ok s2 =>
      rw [h1] at h
      have hne : LF ≠ EOF_CHAR := by decide
      simp only [config_loop_cons, if_neg hne, config_step_lf] at h
      cases h3 : config_newline fs s2 with
      | error e => rw [h3] at h; cases h
      | ok s3 =>
        rw [h3] at h
        simp only [config_loop, Except.ok.injEq] at h
        subst h
        obtain ⟨_, _, k1, k2, k3, k4⟩ := config_newline_ok fs s2 s3 h3
        exact ⟨k2, k3, k4, k1⟩

theorem config_loop_scan (fs : filesystem) (l : Bytes) (h1 : EOF_CHAR ∉ l) (h2 : LF ∉ l) :
    ∀ s, config_loop fs s l = .ok (l.foldl scan_step s) := by
  induction l with
  | nil => intro s; rfl
  | cons ch l ih =>
    intro s
    have hch : ch ≠ EOF_CHAR := fun h => h1 (h ▸ List.mem_cons_self _ _)
    have hlf : ch ≠ LF := fun h => h2 (h ▸ List.mem_cons_self _ _)
    rw [config_loop_cons, if_neg hch, config_step_not_lf fs s ch hlf]
    exact ih (fun h => h1 (List.mem_cons_of_mem _ h)) (fun h => h2 (List.mem_cons_of_mem _ h)) _

theorem scan_step_frame (s : load_state) (ch : Char) :
    (scan_step s ch).conf = s.conf ∧ (scan_step s ch).lineno = s.lineno
      ∧ (scan_step s ch).line = s.line ++ [ch] := by
  simp only [scan_step]
  split
  · exact ⟨rfl, rfl, rfl⟩
  · split
    · exact ⟨rfl, rfl, rfl⟩
    · split
      · exact ⟨rfl, rfl, rfl⟩
      · split
        · exact ⟨rfl, rfl, rfl⟩
        · simp only [append_buf]; split <;> exact ⟨rfl, rfl, rfl⟩

theorem scan_step_tokens (s t : load_state) (ch : Char) (h : same_tokens s t) :
    same_tokens (scan_step s ch) (scan_step t ch) := by
  obtain ⟨hk, hv, hb, hq⟩ := h
  simp only [scan_step, same_tokens, hq]
  split
  · exact ⟨hk, hv, hb, rfl⟩
  · split
    · exact ⟨hk, hv, hb, rfl⟩
    · split
      · exact ⟨hk, hv, hb, rfl⟩
      · split
        · exact ⟨hk, hv, rfl, rfl⟩
        · simp only [append_buf, hb]
          split <;> simp [hk, hv, *]

theorem scan_frame (l : Bytes) : ∀ s : load_state,
    (l.foldl scan_step s).conf = s.conf ∧ (l.foldl scan_step s).lineno = s.lineno
      ∧ (l.foldl scan_step s).line = s.line ++ l := by
  induction l with
  | nil => intro s; simp
  | cons ch l ih =>
    intro s
    obtain ⟨a1, a2, a3⟩ := ih (scan_step s ch)
    obtain ⟨b1, b2, b3⟩ := scan_step_frame s ch
    simp only [List.foldl_cons]
    exact ⟨a1.trans b1, a2.trans b2, by rw [a3, b3]; simp⟩

theorem scan_tokens (l : Bytes) : ∀ s t : load_state, same_tokens s t →
    same_tokens (l.foldl scan_step s) (l.foldl scan_step t) := by
  induction l with
  | nil => intro s t h; exact h
  | cons ch l ih => intro s t h; exact ih _ _ (scan_step_tokens s t ch h)

theorem strcasecmp_port_nonempty (k : Bytes) (h : strcasecmp k "port".toList = 0) :
    k.length ≠ 0 := by
  intro hk
  have hk2 : k = [] := List.length_eq_zero.mp hk
  subst hk2
  revert h
  decide

theorem config_newline_invalid_port (fs : filesystem) (s : load_state)
    (hk : strcasecmp s.key "port".toList = 0) (hv : s.value ≠ []) (h0 : atoi s.value = 0) :
    config_newline fs s
      = .error { lineno := s.lineno, line := s.line, errormsg := "invalid port".toList } := by
  have hk1 : s.key.length ≠ 0 := strcasecmp_port_nonempty s.key hk
  have hv1 : s.value.length ≠ 0 := fun h => hv (List.length_eq_zero.mp h)
  have hbad : ¬ ((s.key.length = 0 ∧ s.value.length > 0)
      ∨ (s.value.length = 0 ∧ s.key.length > 0)) := by
    rintro (⟨h, _⟩ | ⟨h, _⟩)
    · exact hk1 h
    · exact hv1 h
  rw [config_newline, if_neg hbad]
  simp only [apply_setting, hv1, hk1, ne_eq, not_false_eq_true, and_self, if_true, hk, h0]

theorem main_option_status (fs : filesystem) (m : main_state) (o : getopt_result) (st : Int)
    (h : main_option fs m o = .error st) : st = 1 := by
  cases o with
  | p optarg =>
    simp only [main_option] at h
    split at h
    · injection h with h; exact h.symm
    · cases h
  | d => cases h
  | l optarg => cases h
  | r optarg =>
    simp only [main_option] at h
    split at h
    · cases h
    · injection h with h; exact h.symm
  | other => cases h

theorem main_options_zero_port (fs : filesystem) (arg : Bytes) (h0 : atoi arg = 0)
    (opts : List getopt_result) (hmem : getopt_result.p arg ∈ opts) :
    ∀ m, main_options fs m opts = .error 1 := by
  induction opts with
  | nil => simp at hmem
  | cons o os ih =>
    intro m
    simp only [main_options]
    cases hst : main_option fs m o with
    | error st => simp [main_option_status fs m o st hst]
    | ok m1 =>
      rcases List.mem_cons.mp hmem with heq | hin
      · subst heq
        have : to_short 0 = 0 := by decide
        simp [main_option, h0, this] at hst
      · exact ih hin m1

theorem connection_handler_exit (ext : collaborators) (serv : server) (con : connection)
    (rs : List recv_result) (n : Int) (hn : (recv_loop ext con rs).nbytes = some n) :
    connection_handler ext serv con rs
      = { con := ext.http_response_send serv
            (ext.http_request_parse serv (recv_loop ext con rs).con),
          ret := some (read_status (recv_loop ext con rs).con n).1,
          trace := Event.printf_socket con.sockfd :: (recv_loop ext con rs).trace
            ++ (read_status (recv_loop ext con rs).con n).2
            ++ [Event.http_request_parse, Event.http_response_send, Event.log_request] } := by
  simp [connection_handler, hn]

theorem read_status_events (c : connection) (n : Int) (e : Event)
    (he : e ∈ (read_status c n).2) :
    e = Event.printf_closed c.sockfd ∨ e = Event.log_info_closed c.sockfd
      ∨ e = Event.perror_read ∨ e = Event.log_error_read := by
  simp only [read_status] at he
  split at he
  · split at he
    · simp only [List.mem_cons, List.mem_singleton, List.not_mem_nil, or_false] at he
      rcases he with he | he
      · exact Or.inl he
      · exact Or.inr (Or.inl he)
    · split at he
      · simp only [List.mem_cons, List.mem_singleton, List.not_mem_nil, or_false] at he
        rcases he with he | he
        · exact Or.inr (Or.inr (Or.inl he))
        · exact Or.inr (Or.inr (Or.inr he))
      · simp at he
  · simp at he

theorem handler_head_events (ext : collaborators) (con : connection)
    (rs : List recv_result) (n : Int) (e : Event) (he : e ∈ handler_head ext con rs n) :
    e = Event.printf_socket con.sockfd ∨ (∃ r, e = Event.recv r)
      ∨ e = Event.http_request_complete
      ∨ e = Event.printf_closed (recv_loop ext con rs).con.sockfd
      ∨ e = Event.log_info_closed (recv_loop ext con rs).con.sockfd
      ∨ e = Event.perror_read ∨ e = Event.log_error_read := by
  simp only [handler_head, List.cons_append, List.mem_cons, List.mem_append] at he
  rcases he with he | he | he
  · exact Or.inl he
  · rcases recv_loop_events ext rs con e he with h | h
    · exact Or.inr (Or.inl h)
    · exact Or.inr (Or.inr (Or.inl h))
  · rcases read_status_events _ n e he with h | h | h | h
    · exact Or.inr (Or.inr (Or.inr (Or.inl h)))
    · exact Or.inr (Or.inr (Or.inr (Or.inr (Or.inl h))))
    · exact Or.inr (Or.inr (Or.inr (Or.inr (Or.inr (Or.inl h)))))
    · exact Or.inr (Or.inr (Or.inr (Or.inr (Or.inr (Or.inr h)))))

theorem to_short_of_short (x : Int) (h : is_short x) : to_short x = x := by
  simp only [is_short] at h
  simp only [to_short]
  norm_num at h ⊢
  omega

theorem start_server_port_eq (serv : server) (hf : is_short serv.conf.port) :
    (start_server_port serv).port = selected_port serv.port serv.conf.port := by
  simp only [start_server_port, selected_port]
  by_cases hc0 : serv.port = 0
  · by_cases hf0 : serv.conf.port = 0
    · simp [hc0, hf0, DEFAULT_PORT]
    · simp [hc0, hf0, to_short_of_short _ hf]
  · simp [hc0]

theorem start_server_port_stored (serv : server) :
    (start_server_port serv).port = stored_port serv.port serv.conf.port := by
  simp only [start_server_port, stored_port]
  by_cases hc0 : serv.port = 0
  · by_cases hf0 : serv.conf.port = 0
    · simp [hc0, hf0, DEFAULT_PORT]
    · simp [hc0, hf0]
  · simp [hc0]

theorem to_short_ne_zero (x : Int) (h : x % 65536 ≠ 0) : to_short x ≠ 0 := by
  simp only [to_short]
  norm_num
  omega

theorem stored_port_ne_zero (c f : Int) (hf : f = 0 ∨ f % 65536 ≠ 0) :
    stored_port c f ≠ 0 := by
  simp only [stored_port]
  split
  · assumption
  · split
    · rename_i hf0
      rcases hf with h | h
      · exact absurd h hf0
      · exact to_short_ne_zero f h
    · decide

theorem jail_server_port (chroot_ok : Bool) (serv serv1 : server)
    (logfile chroot_path lf : Bytes)
    (h : jail_server chroot_ok serv logfile chroot_path = .jailed serv1 lf) :
    serv1.port = serv.port := by
  simp only [jail_server] at h
  split at h
  · split at h
    · cases h
    · split at h
      · injection h with h1 h2
        rw [← h1]
      · cases h
  · cases h

theorem config_loop_port_line (fs : filesystem) (s1 : load_state) (l post k v : Bytes)
    (h1 : EOF_CHAR ∉ l) (h2 : LF ∉ l)
    (hkey : s1.key = []) (hval : s1.value = []) (hbuf : s1.buf = .key)
    (htok : line_tokens fs s1.is_str l = some (k, v))
    (hk : strcasecmp k "port".toList = 0) (hv : v ≠ []) (h0 : atoi v = 0) :
    config_loop fs s1 (l ++ LF :: post)
      = .error { lineno := s1.lineno, line := s1.line ++ l,
                 errormsg := "invalid port".toList } := by
  have hne : LF ≠ EOF_CHAR := by decide
  have hsame : same_tokens s1 { load_init config_init with is_str := s1.is_str } :=
    ⟨hkey, hval, hbuf, rfl⟩
  have hfin := scan_tokens l _ _ hsame
  simp only [line_tokens, config_loop_scan fs l h1 h2, Option.some.injEq, Prod.mk.injEq] at htok
  obtain ⟨f1, f2, f3⟩ := scan_frame l s1
  have hk2 : (l.foldl scan_step s1).key = k := hfin.1.trans htok.1
  have hv2 : (l.foldl scan_step s1).value = v := hfin.2.1.trans htok.2
  rw [config_loop_append fs l (LF :: post) h1, config_loop_scan fs l h1 h2]
  simp only [config_loop_cons, if_neg hne, config_step_lf]
  rw [config_newline_invalid_port fs _ (by rw [hk2]; exact hk) (by rw [hv2]; exact hv)
    (by rw [hv2]; exact h0), f2, f3]

theorem in_quotes_is_str (pre : Bytes) :
    (0 + pre.count QUOTE) % 2 = if in_quotes pre then 1 else 0 := by
  simp only [in_quotes, decide_eq_true_eq, zero_add]
  split <;> omega

theorem config_loop_zero_port (fs : filesystem) (conf : config) (pre l post k v : Bytes)
    (hpre : EOF_CHAR ∉ pre) (h1 : EOF_CHAR ∉ l) (h2 : LF ∉ l)
    (hstart : pre = [] ∨ pre.getLast? = some LF)
    (htok : line_tokens fs (if in_quotes pre then 1 else 0) l = some (k, v))
    (hk : strcasecmp k "port".toList = 0) (hv : v ≠ []) (h0 : atoi v = 0) :
    (∃ e, config_loop fs (load_init conf) (pre ++ l ++ LF :: post) = .error e)
    ∧ ∀ s1, config_loop fs (load_init conf) pre = .ok s1 →
        config_loop fs (load_init conf) (pre ++ l ++ LF :: post)
          = .error { lineno := 1 + (pre.count LF : Nat), line := l,
                     errormsg := "invalid port".toList } := by
  have hcases : ∀ s1, config_loop fs (load_init conf) pre = .ok s1 →
      config_loop fs (load_init conf) (pre ++ l ++ LF :: post)
        = .error { lineno := 1 + (pre.count LF : Nat), line := l,
                   errormsg := "invalid port".toList } := by
    intro s1 hs1
    obtain ⟨a1, a2, a3, a4⟩ := config_loop_line_start fs conf pre hpre hstart s1 hs1
    obtain ⟨b1, b2⟩ := config_loop_ok_facts fs pre hpre (load_init conf) s1 hs1
      (by simp [load_init])
    have hq : s1.is_str = if in_quotes pre then 1 else 0 := by
      rw [b1]; exact in_quotes_is_str pre
    rw [List.append_assoc, config_loop_append fs pre _ hpre, hs1]
    simp only
    rw [config_loop_port_line fs s1 l post k v h1 h2 a1 a2 a3 (by rw [hq]; exact htok)
      hk hv h0, b2, a4]
    simp [load_init]
  refine ⟨?_, hcases⟩
  cases hp : config_loop fs (load_init conf) pre with
  | error e =>
    refine ⟨e, ?_⟩
    rw [List.append_assoc, config_loop_append fs pre _ hpre, hp]
  | ok s1 => exact ⟨_, hcases s1 hp⟩

theorem config_load_outcome (fs : filesystem) (conf : config) (text : Bytes) :
    config_load fs conf (some text) = loop_outcome (config_loop fs (load_init conf) text) := by
  simp only [config_load]
  cases config_loop fs (load_init conf) text <;> rfl

theorem config_loop_unfinished_line (fs : filesystem) (s : Bytes) (hs : LF ∉ s) :
    ∀ st, ∃ st2, config_loop fs st s = .ok st2 ∧ st2.conf = st.conf := by
  induction s with
  | nil => intro st; exact ⟨st, rfl, rfl⟩
  | cons ch s ih =>
    intro st
    have hlf : ch ≠ LF := fun h => hs (h ▸ List.mem_cons_self _ _)
    have hs2 : LF ∉ s := fun h => hs (List.mem_cons_of_mem _ h)
    rw [config_loop_cons]
    split
    · exact ⟨st, rfl, rfl⟩
    · rw [config_step_not_lf fs st ch hlf]
      obtain ⟨st2, h1, h2⟩ := ih hs2 (scan_step st ch)
      exact ⟨st2, h1, h2.trans (scan_step_frame st ch).1⟩

theorem config_loop_ignores_tail (fs : filesystem) (s : Bytes) (hs : LF ∉ s) (t : Bytes) :
    ∀ st, loop_outcome (config_loop fs st (t ++ s)) = loop_outcome (config_loop fs st t) := by
  induction t with
  | nil =>
    intro st
    obtain ⟨st2, h1, h2⟩ := config_loop_unfinished_line fs s hs st
    rw [List.nil_append, h1]
    simp only [config_loop, loop_outcome, h2]
  | cons ch t ih =>
    intro st
    rw [List.cons_append, config_loop_cons, config_loop_cons]
    split
    · rfl
    · cases config_step fs st ch with
      | error e => rfl
      | ok st1 => exact ih st1

/-! ## The claims -/

/-- C1 (as stated, refuted): for a connection that sends a partial request line and
then closes, so that a read returns 0 before the detector reported a complete
request, `connection_handler` still calls `http_request_parse` and
`http_response_send`. -/
theorem C1_eof_still_parsed_and_sent :
    (recv_loop sample_ext sample_con [recv_result.data "GET /".toList, recv_result.eof]).nbytes
        = some 0
    ∧ Event.http_request_parse ∈
        (connection_handler sample_ext server_init sample_con
          [recv_result.data "GET /".toList, recv_result.eof]).trace
    ∧ Event.http_response_send ∈
        (connection_handler sample_ext server_init sample_con
          [recv_result.data "GET /".toList, recv_result.eof]).trace := by
  decide

/-- C1 (amended): when the read loop ends on a read that returns 0 or a negative
value, `connection_handler` returns -1 and still calls `http_request_parse`,
`http_response_send` and `log_request`, once each and in this order, as its last
three calls, on the connection the loop left. -/
theorem C1_failed_read_returns_minus_one (ext : collaborators) (serv : server)
    (con : connection) (rs : List recv_result) (n : Int)
    (hn : (recv_loop ext con rs).nbytes = some n) (h0 : n ≤ 0) :
    (connection_handler ext serv con rs).ret = some (-1)
    ∧ (connection_handler ext serv con rs).con
        = ext.http_response_send serv (ext.http_request_parse serv (recv_loop ext con rs).con)
    ∧ ∃ pre, (connection_handler ext serv con rs).trace
          = pre ++ [Event.http_request_parse, Event.http_response_send, Event.log_request]
        ∧ Event.http_request_parse ∉ pre ∧ Event.http_response_send ∉ pre
        ∧ Event.log_request ∉ pre := by
  rw [connection_handler_exit ext serv con rs n hn]
  refine ⟨by simp [read_status, h0], rfl, handler_head ext con rs n, rfl, ?_, ?_, ?_⟩
  all_goals
    intro hmem
    rcases handler_head_events ext con rs n _ hmem with h | ⟨r, h⟩ | h | h | h | h | h
      <;> cases h

/-- Witness of C1 (amended): a partial request line followed by end of stream. -/
theorem C1_failed_read_returns_minus_one_witness :
    (connection_handler sample_ext server_init sample_con
        [recv_result.data "GET /".toList, recv_result.eof]).ret = some (-1) :=
  (C1_failed_read_returns_minus_one sample_ext server_init sample_con
    [recv_result.data "GET /".toList, recv_result.eof] 0 (by decide) (by decide)).1

/-- C2: for every sequence of read results and every detector that leaves
`recv_buf` alone, the read loop makes `reads` calls of `recv`, none of the earlier
reads ends the loop, the last one does (it returns a value `<= 0` or the detector
reports completeness after it) unless the sequence is used up with no read ending
the loop, the calls made are exactly those reads each followed by one detector
call when positive, and `recv_buf` is its initial content followed by the chunks
of the positive reads in arrival order. -/
theorem C2_read_loop (ext : collaborators) (con : connection) (rs : List recv_result)
    (hframe : ∀ c, (ext.http_request_complete c).2.recv_buf = c.recv_buf) :
    (recv_loop ext con rs).reads ≤ rs.length
    ∧ (∀ i, i + 1 < (recv_loop ext con rs).reads → stops ext con rs i = false)
    ∧ (∀ n, (recv_loop ext con rs).nbytes = some n →
        0 < (recv_loop ext con rs).reads
        ∧ stops ext con rs ((recv_loop ext con rs).reads - 1) = true
        ∧ (rs.get? ((recv_loop ext con rs).reads - 1)).map recv_result.nbytes = some n)
    ∧ ((recv_loop ext con rs).nbytes = none →
        (recv_loop ext con rs).reads = rs.length ∧ ∀ i, stops ext con rs i = false)
    ∧ (recv_loop ext con rs).trace
        = (rs.take (recv_loop ext con rs).reads).flatMap read_events
    ∧ (recv_loop ext con rs).con.recv_buf
        = con.recv_buf ++ (rs.take (recv_loop ext con rs).reads).flatMap read_bytes :=
  ⟨recv_loop_reads_le ext rs con, recv_loop_before ext rs con, recv_loop_last ext rs con,
    recv_loop_waiting ext rs con, recv_loop_trace ext rs con,
    recv_loop_buf ext rs hframe con⟩

/-- Witness of C2: a request line that arrives in two chunks, followed by a chunk
that is never read. -/
theorem C2_read_loop_witness :
    (recv_loop sample_ext sample_con
        [recv_result.data "GET /".toList, recv_result.data ['a', LF],
         recv_result.data "more".toList]).reads = 2
    ∧ (recv_loop sample_ext sample_con
        [recv_result.data "GET /".toList, recv_result.data ['a', LF],
         recv_result.data "more".toList]).con.recv_buf
        = sample_con.recv_buf ++
          (List.take
            (recv_loop sample_ext sample_con
              [recv_result.data "GET /".toList, recv_result.data ['a', LF],
               recv_result.data "more".toList]).reads
            [recv_result.data "GET /".toList, recv_result.data ['a', LF],
             recv_result.data "more".toList]).flatMap read_bytes :=
  ⟨by decide,
   (C2_read_loop sample_ext sample_con
      [recv_result.data "GET /".toList, recv_result.data ['a', LF],
       recv_result.data "more".toList] (fun _ => rfl)).2.2.2.2.2⟩

/-- C3: on a container whose bookkeeping matches its allocation,
`http_headers_add(h, k, v)` and `http_headers_add_int(h, k, n)` append exactly one
entry at the end, `(k, v)` resp. `(k, decimal rendering of n)`: the entry sequence
is the old one followed by the new entry, `len` grows by one and every earlier
entry keeps its position, key and value, whatever keys are already present. -/
theorem C3_add_appends_one_entry (h : http_headers) (hk : headers_ok h)
    (k v : Bytes) (n : Int) :
    (entries (http_headers_add h k v) = entries h ++ [{ key := k, value := v }]
      ∧ (http_headers_add h k v).len = h.len + 1
      ∧ ∀ i, i < h.len → (entries (http_headers_add h k v)).get? i = (entries h).get? i)
    ∧ (entries (http_headers_add_int h k n)
          = entries h ++ [{ key := k, value := string_append_int [] n }]
      ∧ (http_headers_add_int h k n).len = h.len + 1
      ∧ ∀ i, i < h.len →
          (entries (http_headers_add_int h k n)).get? i = (entries h).get? i) := by
  have hlen : (entries h).length = h.len := by
    simp only [entries, List.length_take]
    have := hk.1
    have := hk.2
    omega
  refine ⟨⟨add_entries h k v hk, ?_, ?_⟩, ⟨add_int_entries h k n hk, ?_, ?_⟩⟩
  · simp [http_headers_add, store, extend_len]
  · intro i hi
    rw [add_entries h k v hk]
    simp only [List.get?_eq_getElem?]
    exact List.getElem?_append_left (by omega)
  · simp [http_headers_add_int, store, extend_len]
  · intro i hi
    rw [add_int_entries h k n hk]
    simp only [List.get?_eq_getElem?]
    exact List.getElem?_append_left (by omega)

/-- Witness of C3: a second `Content-Length` in another letter case is added as a
third entry after the two present ones. -/
theorem C3_add_appends_one_entry_witness :
    entries (http_headers_add_int sample_headers "Content-Length".toList 42)
      = [{ key := "Host".toList, value := "a".toList },
         { key := "content-length".toList, value := "7".toList },
         { key := "Content-Length".toList, value := "42".toList }] :=
  (C3_add_appends_one_entry sample_headers (by decide) "Content-Length".toList [] 42).2.1.trans
    (by decide)

/-- C4: for a response whose content length is a C `int`, the content-length
field of the line `log_request` writes is `-` exactly when the content length is
not greater than -1 or the method is HEAD, and in every other case it is the
decimal rendering of the content length. -/
theorem C4_log_content_length (host_ip date : Bytes) (con : connection)
    (hint : is_int con.response.content_length) :
    ((log_request host_ip date con).content_len = "-".toList
        ↔ (con.response.content_length ≤ -1
            ∨ con.request.method = http_method.HTTP_METHOD_HEAD))
    ∧ (¬ (con.response.content_length ≤ -1
            ∨ con.request.method = http_method.HTTP_METHOD_HEAD) →
        (log_request host_ip date con).content_len
          = decimal con.response.content_length.toNat) := by
  obtain ⟨_, hhi⟩ := hint
  have hdash : "-".toList = ['-'] := by decide
  by_cases hc : con.response.content_length > -1 ∧ con.request.method ≠ .HTTP_METHOD_HEAD
  · have hfmt := snprintf_d_nonneg con.response.content_length (by omega) hhi
    have hval : (log_request host_ip date con).content_len
        = decimal con.response.content_length.toNat := by
      simp only [log_request, log_content_len]
      rw [if_pos hc, hfmt]
    have hno : ¬ (con.response.content_length ≤ -1
        ∨ con.request.method = http_method.HTTP_METHOD_HEAD) := by
      rintro (h | h)
      · omega
      · exact hc.2 h
    refine ⟨⟨fun heq => ?_, fun h => absurd h hno⟩, fun _ => hval⟩
    exfalso
    have hmem := decimal_no_minus con.response.content_length.toNat
    rw [← hval, heq, hdash] at hmem
    exact hmem (List.mem_singleton.mpr rfl)
  · have hval : (log_request host_ip date con).content_len = "-".toList := by
      simp only [log_request, log_content_len]
      rw [if_neg hc]
    have hyes : con.response.content_length ≤ -1
        ∨ con.request.method = http_method.HTTP_METHOD_HEAD := by
      by_cases h1 : con.response.content_length > -1
      · right
        by_contra h2
        exact hc ⟨h1, h2⟩
      · left; omega
    exact ⟨⟨fun _ => hyes, fun _ => hval⟩, fun h => absurd hyes h⟩

/-- Witness of C4: a GET answered with 1234 bytes is logged with `1234`. -/
theorem C4_log_content_length_witness :
    (log_request [] []
      { sample_con with
        request := { sample_con.request with method := http_method.HTTP_METHOD_GET },
        response := { sample_con.response with content_length := 1234 } }).content_len
      = "1234".toList :=
  ((C4_log_content_length [] []
      { sample_con with
        request := { sample_con.request with method := http_method.HTTP_METHOD_GET },
        response := { sample_con.response with content_length := 1234 } }
      (by decide)).2 (by decide)).trans (by decide)

/-- C5: whenever the read loop ends (request complete, end of stream or read
error), the worker path reaches its end with `connection_close` run once after
`connection_handler`: the connection is freed once, and `close` is called once, on
`sockfd`, when `sockfd > -1`, and not at all when `sockfd <= -1`; on a null
connection `connection_close` makes no call. -/
theorem C5_socket_released_once (ext : collaborators) (serv : server) (con : connection)
    (rs : List recv_result) (n : Int) (hn : (recv_loop ext con rs).nbytes = some n) :
    (worker_path ext serv con rs).2 = true
    ∧ (worker_path ext serv con rs).1
        = (connection_handler ext serv con rs).trace
          ++ connection_close (some (connection_handler ext serv con rs).con)
    ∧ (worker_path ext serv con rs).1.count Event.free_con = 1
    ∧ (worker_path ext serv con rs).1.count Event.http_request_free = 1
    ∧ ((connection_handler ext serv con rs).con.sockfd > -1 →
        (worker_path ext serv con rs).1.countP Event.is_close = 1
        ∧ (worker_path ext serv con rs).1.count
            (Event.close (connection_handler ext serv con rs).con.sockfd) = 1)
    ∧ ((connection_handler ext serv con rs).con.sockfd ≤ -1 →
        (worker_path ext serv con rs).1.countP Event.is_close = 0)
    ∧ connection_close none = [] := by
  have hret : (connection_handler ext serv con rs).ret
      = some (read_status (recv_loop ext con rs).con n).1 := by
    rw [connection_handler_exit ext serv con rs n hn]
  have hw : worker_path ext serv con rs
      = ((connection_handler ext serv con rs).trace
          ++ connection_close (some (connection_handler ext serv con rs).con), true) := by
    simp only [worker_path, hret]
  have htr : (connection_handler ext serv con rs).trace
      = handler_head ext con rs n
        ++ [Event.http_request_parse, Event.http_response_send, Event.log_request] := by
    rw [connection_handler_exit ext serv con rs n hn]; rfl
  have hhead : ∀ e ∈ handler_head ext con rs n,
      e ≠ Event.free_con ∧ e ≠ Event.http_request_free ∧ Event.is_close e = false := by
    intro e he
    rcases handler_head_events ext con rs n e he with h | ⟨r, h⟩ | h | h | h | h | h
      <;> subst h <;> exact ⟨by simp, by simp, rfl⟩
  have c1 : (handler_head ext con rs n).count Event.free_con = 0 :=
    List.count_eq_zero.mpr (fun hm => (hhead _ hm).1 rfl)
  have c2 : (handler_head ext con rs n).count Event.http_request_free = 0 :=
    List.count_eq_zero.mpr (fun hm => (hhead _ hm).2.1 rfl)
  have c3 : (handler_head ext con rs n).countP Event.is_close = 0 :=
    List.countP_eq_zero.mpr (fun e hm => by simp [(hhead e hm).2.2])
  have c4 : ∀ fd, (handler_head ext con rs n).count (Event.close fd) = 0 := fun fd =>
    List.count_eq_zero.mpr (fun hm => by simpa [Event.is_close] using (hhead _ hm).2.2)
  rw [hw]
  refine ⟨rfl, rfl, ?_, ?_, ?_, ?_, rfl⟩
  · simp only [htr, List.count_append, c1, connection_close]
    split <;> simp
  · simp only [htr, List.count_append, c2, connection_close]
    split <;> simp
  · intro hfd
    simp only [htr, List.count_append, List.countP_append, c3, c4, connection_close, hfd,
      if_true]
    simp [Event.is_close]
  · intro hfd
    have hfd2 : ¬ (connection_handler ext serv con rs).con.sockfd > -1 := by omega
    simp only [htr, List.countP_append, c3, connection_close, hfd2, if_false]
    simp [Event.is_close]

/-- Witness of C5: a read error on the first read; the descriptor 4 is closed once. -/
theorem C5_socket_released_once_witness :
    (worker_path sample_ext server_init sample_con [recv_result.error]).1.countP
      Event.is_close = 1 :=
  ((C5_socket_released_once sample_ext server_init sample_con [recv_result.error] (-1)
    (by decide)).2.2.2.2.1 (by decide)).1

/-- C6 (as stated, refuted): the text `x`, newline, `port = 0`, newline contains a
newline-terminated `port` setting whose value is zero, yet the error `config_load`
reports is not "invalid port": it is "bad syntax", raised at line 1. -/
theorem C6_earlier_error_wins :
    line_tokens sample_fs (if in_quotes ['x', LF] then 1 else 0) "port = 0".toList
        = some ("port".toList, "0".toList)
    ∧ strcasecmp "port".toList "port".toList = 0
    ∧ atoi "0".toList = 0
    ∧ config_load sample_fs config_init (some (['x', LF] ++ "port = 0".toList ++ LF :: []))
        = load_outcome.configerr
            { lineno := 1, line := ['x'], errormsg := "bad syntax".toList } := by
  decide

/-- C6 (amended): when a text without a byte `0xFF` before it has a line, closed
by a newline, whose key is `port` (in any letter case) and whose non-empty value
has `atoi` 0, `config_load` ends at `configerr` with exit status 1 and returns no
configuration, and the error is "invalid port" at that line unless the text before
the line already ends in an error; and when some `-p` argument has `atoi` 0, `main`
exits with status 1 in its option loop, before `start_server` is called. -/
theorem C6_zero_port_is_fatal :
    (∀ (fs : filesystem) (conf : config) (pre l post k v : Bytes),
      EOF_CHAR ∉ pre → EOF_CHAR ∉ l → LF ∉ l →
      (pre = [] ∨ pre.getLast? = some LF) →
      line_tokens fs (if in_quotes pre then 1 else 0) l = some (k, v) →
      strcasecmp k "port".toList = 0 → v ≠ [] → atoi v = 0 →
      (∃ e, config_load fs conf (some (pre ++ l ++ LF :: post)) = load_outcome.configerr e)
      ∧ (config_load fs conf (some (pre ++ l ++ LF :: post))).exit_status = some 1
      ∧ (∀ c, config_load fs conf (some pre) = load_outcome.returned c →
          config_load fs conf (some (pre ++ l ++ LF :: post))
            = load_outcome.configerr
                { lineno := 1 + (pre.count LF : Nat), line := l,
                  errormsg := "invalid port".toList }))
    ∧ (∀ (fs : filesystem) (web_conf : Option Bytes) (chroot_ok : Bool)
        (opts : List getopt_result) (arg : Bytes),
      getopt_result.p arg ∈ opts → atoi arg = 0 →
      main_options fs main_init opts = Except.error 1
      ∧ main fs web_conf chroot_ok opts = start_result.exited 1) := by
  constructor
  · intro fs conf pre l post k v hpre h1 h2 hstart htok hk hv h0
    obtain ⟨⟨e, he⟩, hall⟩ :=
      config_loop_zero_port fs conf pre l post k v hpre h1 h2 hstart htok hk hv h0
    refine ⟨⟨e, by simp only [config_load, he]⟩,
      by simp only [config_load, he, load_outcome.exit_status], ?_⟩
    intro c hc
    simp only [config_load] at hc
    cases hp : config_loop fs (load_init conf) pre with
    | error e2 => rw [hp] at hc; cases hc
    | ok s1 => simp only [config_load, hall s1 hp]
  · intro fs web_conf chroot_ok opts arg hmem h0
    have hm := main_options_zero_port fs arg h0 opts hmem main_init
    exact ⟨hm, by simp [main, hm]⟩

/-- Witness of C6 (amended): the file `port = 0` after a valid first line, and the
command line `-d -p abc`. -/
theorem C6_zero_port_is_fatal_witness :
    config_load sample_fs config_init
        (some (("port = 80".toList ++ [LF]) ++ "port = 0".toList ++ LF :: []))
      = load_outcome.configerr
          { lineno := 2, line := "port = 0".toList, errormsg := "invalid port".toList }
    ∧ main sample_fs none true [getopt_result.d, getopt_result.p "abc".toList]
      = start_result.exited 1 :=
  ⟨((C6_zero_port_is_fatal.1 sample_fs config_init ("port = 80".toList ++ [LF])
      "port = 0".toList [] "port".toList "0".toList (by decide) (by decide) (by decide)
      (by decide) (by decide) (by decide) (by decide) (by decide)).2.2
        { port := 80, doc_root := [] } (by decide)).trans (by decide),
   (C6_zero_port_is_fatal.2 sample_fs none true
      [getopt_result.d, getopt_result.p "abc".toList] "abc".toList (by decide) (by decide)).2⟩

/-- C8 (the code at the failing input): with the chroot path `/srv/www` and the
document root `/srv/www2/site`, which is not a sub-directory of the chroot path,
the check of `jail_server` passes and the document root becomes `2/site`. -/
theorem C8_sibling_directory_passes_check :
    ¬ proper_subdir "/srv/www".toList "/srv/www2/site".toList
    ∧ doc_root_check "/srv/www".toList "/srv/www2/site".toList = true
    ∧ jail_server true
        { server_init with conf := { port := 0, doc_root := "/srv/www2/site".toList } }
        [] "/srv/www".toList
      = .jailed { server_init with conf := { port := 0, doc_root := "2/site".toList } } [] := by
  decide

/-- C9: inserting (or, read from right to left, deleting) a run of spaces and tabs
at a position outside a double-quoted string, that is after an even number of
double quotes, leaves the outcome of `config_load` unchanged up to the echoed
source line: the same port and document root are accepted, or the same error is
raised at the same line number. -/
theorem C9_blanks_outside_quotes_ignored (fs : filesystem) (conf : config)
    (pre ws post : Bytes) (hws : ∀ c ∈ ws, c = SPACE ∨ c = TAB)
    (hout : in_quotes pre = false) :
    (config_load fs conf (some (pre ++ ws ++ post))).summary
      = (config_load fs conf (some (pre ++ post))).summary := by
  rw [config_load_some, config_load_some, List.append_assoc]
  apply config_loop_insert fs ws post hws pre
  · simp [load_init]
  · have h := in_quotes_is_str pre
    rw [hout] at h
    simpa [load_init] using h

/-- Witness of C9: blanks inserted inside the key `port` and before the value. -/
theorem C9_blanks_outside_quotes_ignored_witness :
    (config_load sample_fs config_init
        (some ("po".toList ++ [SPACE, TAB] ++ ("rt=80".toList ++ [LF])))).summary
      = load_summary.accepted 80 [] :=
  (C9_blanks_outside_quotes_ignored sample_fs config_init "po".toList [SPACE, TAB]
      ("rt=80".toList ++ [LF]) (by decide) (by decide)).trans (by decide)

/-- C10: after every sequence of `http_headers_add` / `http_headers_add_int`
calls on the container `http_headers_init` creates (`len = 0`, `size = 0`),
`len <= size`, `size` is a multiple of 20 and equals the number of allocated
slots, and the next call writes its entry at an index strictly below the capacity
that `extend` leaves, inside the allocated array. -/
theorem C10_capacity_invariant (cs : List header_call) :
    http_headers_init.len = 0 ∧ http_headers_init.size = 0
    ∧ (run_calls http_headers_init cs).len ≤ (run_calls http_headers_init cs).size
    ∧ 20 ∣ (run_calls http_headers_init cs).size
    ∧ (run_calls http_headers_init cs).ptr.length = (run_calls http_headers_init cs).size
    ∧ write_index (run_calls http_headers_init cs)
        < (extend (run_calls http_headers_init cs)).size
    ∧ write_index (run_calls http_headers_init cs)
        < (extend (run_calls http_headers_init cs)).ptr.length := by
  obtain ⟨hk, hd⟩ := run_calls_ok_dvd cs http_headers_init init_ok (by decide)
  obtain ⟨h1, h2⟩ := extend_ok _ hk
  refine ⟨rfl, rfl, hk.1, hd, hk.2, h1, ?_⟩
  rw [h2]; exact h1

/-- C11: settings are only committed at a newline: for every configuration text `t`
(in particular one that is empty or ends with a newline) and every suffix `s`
that contains no newline, `config_load` on `t ++ s` ends exactly as on `t`, with
the same port and document root or the same error; the unfinished last line is
ignored whatever it holds. -/
theorem C11_unfinished_last_line_ignored (fs : filesystem) (conf : config) (t s : Bytes)
    (hs : LF ∉ s) :
    config_load fs conf (some (t ++ s)) = config_load fs conf (some t) := by
  rw [config_load_outcome, config_load_outcome]
  exact config_loop_ignores_tail fs s hs t (load_init conf)

/-- Witness of C11: after the line `port = 80`, the unfinished lines `port = 0`,
`=x` and `colour = red` leave the outcome of the first line alone. -/
theorem C11_unfinished_last_line_ignored_witness :
    config_load sample_fs config_init (some (("port = 80".toList ++ [LF]) ++ "port = 0".toList))
      = load_outcome.returned { port := 80, doc_root := [] }
    ∧ config_load sample_fs config_init (some (("port = 80".toList ++ [LF]) ++ "=x".toList))
      = load_outcome.returned { port := 80, doc_root := [] }
    ∧ config_load sample_fs config_init
        (some (("port = 80".toList ++ [LF]) ++ "colour = red".toList))
      = load_outcome.returned { port := 80, doc_root := [] } :=
  ⟨(C11_unfinished_last_line_ignored sample_fs config_init ("port = 80".toList ++ [LF])
      "port = 0".toList (by decide)).trans (by decide),
   (C11_unfinished_last_line_ignored sample_fs config_init ("port = 80".toList ++ [LF])
      "=x".toList (by decide)).trans (by decide),
   (C11_unfinished_last_line_ignored sample_fs config_init ("port = 80".toList ++ [LF])
      "colour = red".toList (by decide)).trans (by decide)⟩

end CWebServer
